import Mathlib

/-!
# Framing protocol of `transmission_protocol.c`

A shallow embedding of the frame chunker, the sequencer and the frame
initialisation of `transmission_protocol.c`, followed by theorems about them.

Machine integers are natural numbers with explicit reduction modulo the width
of their C type.  Byte buffers are lists of natural numbers; a pointer into a
buffer is the buffer together with an offset.  The frame array handed to a
function is a list of frames; a store through an index outside the list leaves
the list as it is, and a read through such an index contributes nothing.

`TP_FRAME_DATA_LEN_MAX` (written `M`) and `crc16` are declared in headers that are
not among the sources, so every function that uses them takes them as arguments.
-/

namespace TransmissionProtocol

/-! ## Integer types -/

/-- Number of values of `size_t`, taken to be 64 bits wide. -/
def SIZE_MOD : Nat := 2 ^ 64

/-- Number of values of `n_frame_t`, the 16-bit sequence-number type. -/
def N_FRAME_MOD : Nat := 2 ^ 16

/-- Number of values of `uint16_t`, the type of `data_len` and `check_sum`. -/
def UINT16_MOD : Nat := 2 ^ 16

/-- Subtraction of two `size_t` values, wrapping around as unsigned C arithmetic does. -/
def size_sub (a b : Nat) : Nat := (a % SIZE_MOD + SIZE_MOD - b % SIZE_MOD) % SIZE_MOD

/-! ## Data frames -/

/-- The magic bytes `tp_header` that open every frame. -/
def tp_header : List Nat := [0x3A, 0x62, 0x04, 0x3F]

/-- Modelled from the spec: the type `data_frame_t` is declared in
`transmission_protocol.h`, which is not among the sources; the fields are those the
code accesses, in the order the wire layout of the spec gives them.  `header` is a
4-byte array and `data` an array of `TP_FRAME_DATA_LEN_MAX` bytes. -/
structure data_frame_t where
  header : List Nat
  n_file : Nat
  n_frame : Nat
  n_total_frame : Nat
  flag : Nat
  total_data_len : Nat
  data_len : Nat
  data : List Nat
  check_sum : Nat
deriving DecidableEq, Repr

/-- Little-endian bytes of `v` in a field that is `n` bytes wide. -/
def le_bytes : Nat → Nat → List Nat
  | 0, _ => []
  | n + 1, v => v % 256 :: le_bytes n (v / 256)

/-- Modelled from the spec: the byte image of a data frame without its trailing
2-byte `check_sum`, that is the `sizeof(data_frame_t) - sizeof(uint16_t)` bytes that
`crc16` is applied to.  The struct layout lives in the missing header; the image
follows the wire layout of the spec: header(4), n_file(4), n_frame(2),
n_total_frame(3), flag(1), total_data_len(4), data_len(2), data. -/
def frame_image (f : data_frame_t) : List Nat :=
  f.header ++ le_bytes 4 f.n_file ++ le_bytes 2 f.n_frame ++ le_bytes 3 f.n_total_frame
    ++ [f.flag] ++ le_bytes 4 f.total_data_len ++ le_bytes 2 f.data_len ++ f.data

/-! ## Memory primitives -/

/-- The C call `memcpy(dst, src, n)`: the first `n` bytes of `dst` become the first
`n` bytes of `src`, which is expected to hold that many. -/
def memcpy (dst src : List Nat) (n : Nat) : List Nat := src.take n ++ dst.drop n

/-- The C call `memset(dst + off, 0, n)`: `n` bytes of `dst` from offset `off` on
become zero. -/
def memset_zero (dst : List Nat) (off n : Nat) : List Nat :=
  dst.take off ++ List.replicate n 0 ++ dst.drop (off + n)

/-- The C call `memcpy(buf + off, src, n)` into an output buffer; a list shorter than
`off + n` grows by the bytes written past its end. -/
def memcpy_at (buf : List Nat) (off : Nat) (src : List Nat) (n : Nat) : List Nat :=
  buf.take off ++ src.take n ++ buf.drop (off + n)

/-- Store through `data_frames[i]`: frame `i` is replaced by `g` of itself. -/
def update_at (frames : List data_frame_t) (i : Nat) (g : data_frame_t → data_frame_t) :
    List data_frame_t :=
  match frames[i]? with
  | some f => frames.set i (g f)
  | none => frames

/-- Stamp of the checksum: `f.check_sum = crc16((uint8_t *)&f, sizeof(f) - sizeof(uint16_t))`. -/
def stamp_check_sum (crc16 : List Nat → Nat) (f : data_frame_t) : data_frame_t :=
  { f with check_sum := crc16 (frame_image f) }

/-! ## Sequencer -/

/-- The function `id_to_n_frame`.  For `len != 1` the C code returns `id++`: the value of
a post-increment is the value before the increment, and the incremented local
copy is dropped on return. -/
def id_to_n_frame (id len : Nat) : Nat :=
  if len = 1 then id
  else
    let result := id
    let _id := (id + 1) % N_FRAME_MOD
    result

/-- The function `n_frame_to_id`.  For `len != 1` the C code returns `n_frame--`: the value
before the decrement. -/
def n_frame_to_id (n_frame len : Nat) : Nat :=
  if len = 1 then n_frame
  else
    let result := n_frame
    let _n_frame := (n_frame + N_FRAME_MOD - 1) % N_FRAME_MOD
    result

/-! ## Reassembly -/

/-- The function `data_frame_to_data_len`: the `size_t` sum of `data_len` over
`data_frames[0 .. n_frame)`. -/
def data_frame_to_data_len (data_frames : List data_frame_t) (n_frame : Nat) : Nat :=
  (List.range n_frame).foldl
    (fun len i =>
      match data_frames[i]? with
      | some f => (len + f.data_len) % SIZE_MOD
      | none => len)
    0

/-- Loop of `data_frames_to_data`; the state is the offset of `p` in the output and
the output buffer. -/
def data_frames_to_data_loop (data_frames : List data_frame_t) (n_frame : Nat)
    (addr : List Nat) : Nat × List Nat :=
  (List.range n_frame).foldl
    (fun st i =>
      match data_frames[i]? with
      | some f => (st.1 + f.data_len, memcpy_at st.2 st.1 f.data f.data_len)
      | none => st)
    (0, addr)

/-- The function `data_frames_to_data`: the output buffer after the call. -/
def data_frames_to_data (data_frames : List data_frame_t) (n_frame : Nat)
    (addr : List Nat) : List Nat :=
  (data_frames_to_data_loop data_frames n_frame addr).2

/-! ## Chunking -/

/-- Body of the loop of the in-memory path, lines 178-181: a full chunk is copied
from `p`, `data_len` is set and the checksum stamped. -/
def fill_full (M : Nat) (crc16 : List Nat → Nat) (p : List Nat) (f : data_frame_t) :
    data_frame_t :=
  let f1 := { f with data := memcpy f.data p M }
  let f2 := { f1 with data_len := M % UINT16_MOD }
  stamp_check_sum crc16 f2

/-- Lines 184-189: the last frame takes what is left of the payload, the rest of its
data array is zeroed and the checksum stamped.  The count `M - data_len` of the
`memset` is a difference of natural numbers: 0 where `data_len` exceeds `M`. -/
def fill_last (M : Nat) (crc16 : List Nat → Nat) (len i : Nat) (p : List Nat)
    (f : data_frame_t) : data_frame_t :=
  let f1 := { f with data_len := size_sub len (i * M) % UINT16_MOD }
  let f2 := { f1 with data := memcpy f1.data p f1.data_len }
  let f3 := { f2 with data := memset_zero f2.data f2.data_len (M - f2.data_len) }
  stamp_check_sum crc16 f3

/-- The loop `for (; i < n_frame - 1; i++)` of the in-memory path.  The counter `i` is
an `n_frame_t` and wraps modulo `N_FRAME_MOD`; `bound` is the `size_t` value
`n_frame - 1`; `p` is the offset of the read pointer in the payload.  One unit of
`fuel` pays for one evaluation of the loop condition, and `none` means the fuel
ran out before the loop was left. -/
def mem_loop (M : Nat) (crc16 : List Nat → Nat) (addr : List Nat) (bound : Nat) :
    Nat → Nat → Nat → List data_frame_t → Option (Nat × Nat × List data_frame_t)
  | 0, _, _, _ => none
  | fuel + 1, i, p, frames =>
    if i < bound then
      mem_loop M crc16 addr bound fuel ((i + 1) % N_FRAME_MOD) (p + M)
        (update_at frames i (fill_full M crc16 (addr.drop p)))
    else some (i, p, frames)

/-- Lines 160-162 of the path that reads from a file descriptor: the read has put a
full chunk `bs` into the data array. -/
def fd_full (M : Nat) (crc16 : List Nat → Nat) (bs : List Nat) (f : data_frame_t) :
    data_frame_t :=
  let f1 := { f with data := memcpy f.data bs bs.length }
  let f2 := { f1 with data_len := M % UINT16_MOD }
  stamp_check_sum crc16 f2

/-- Lines 169-172: the short read `bs` ends the payload. -/
def fd_last (M : Nat) (crc16 : List Nat → Nat) (bs : List Nat) (f : data_frame_t) :
    data_frame_t :=
  let f1 := { f with data := memcpy f.data bs bs.length }
  let f2 := { f1 with data_len := bs.length % UINT16_MOD }
  let f3 := { f2 with data := memset_zero f2.data bs.length (M - bs.length) }
  stamp_check_sum crc16 f3

/-- The loop `while (true)` of the path with `addr == NULL`.  The file behind the
descriptor is given by what its successive `read` calls return: `some bs` for a
read of `bs.length` bytes, `none` for the error return `-1`; once the list is used
up every read returns 0 bytes. -/
def fd_loop (M : Nat) (crc16 : List Nat → Nat) :
    List (Option (List Nat)) → Nat → List data_frame_t → List data_frame_t
  | [], i, frames => update_at frames i (fd_last M crc16 [])
  | none :: _, _, frames => frames
  | some bs :: rest, i, frames =>
    if bs.length = M then
      fd_loop M crc16 rest ((i + 1) % N_FRAME_MOD) (update_at frames i (fd_full M crc16 bs))
    else update_at frames i (fd_last M crc16 bs)

/-- The function `data_to_data_frames(addr, len, data_frames)`.  `M` is the constant
`TP_FRAME_DATA_LEN_MAX` and `crc16` the checksum of `crc.h`, both declared outside
the sources.  `addr = none` is the null pointer, in which case `len` is a file
descriptor whose reads are `reads`.  The result is the frame array after the
call, or `none` when `fuel` does not suffice for the loop to be left. -/
def data_to_data_frames (M : Nat) (crc16 : List Nat → Nat) (reads : List (Option (List Nat)))
    (addr : Option (List Nat)) (len : Nat) (data_frames : List data_frame_t) (fuel : Nat) :
    Option (List data_frame_t) :=
  match addr with
  | none => some (fd_loop M crc16 reads 0 data_frames)
  | some a =>
    let n_frame := (size_sub len 1 / M + 1) % SIZE_MOD
    match mem_loop M crc16 a (size_sub n_frame 1) fuel 0 0 data_frames with
    | none => none
    | some (i, p, frames) => some (update_at frames i (fill_last M crc16 len i (a.drop p)))

/-! ## Initialisation and allocation -/

/-- Body of the loop of `init_data_frames`, lines 239-242. -/
def init_frame (n_frame n_file flag i : Nat) (f : data_frame_t) : data_frame_t :=
  let f1 := { f with header := memcpy f.header tp_header tp_header.length }
  let f2 := { f1 with n_file := n_file }
  let f3 := { f2 with n_frame := id_to_n_frame (i % N_FRAME_MOD) n_frame }
  { f3 with flag := flag }

/-- The function `init_data_frames(data_frames, n_frame, n_file, flag)`. -/
def init_data_frames (data_frames : List data_frame_t) (n_frame n_file flag : Nat) :
    List data_frame_t :=
  (List.range n_frame).foldl (fun frames i => update_at frames i (init_frame n_frame n_file flag i))
    data_frames

/-- The function `alloc_data_frames(n_frame, n_file, addr, len, flag)`.  `heap` is what
`malloc(n_frame * sizeof(data_frame_t))` returns: `none` for the null pointer,
otherwise the frames with whatever the memory holds.  The outer option is `none`
when `fuel` does not suffice; the inner one is `none` for the null return. -/
def alloc_data_frames (M : Nat) (crc16 : List Nat → Nat) (reads : List (Option (List Nat)))
    (heap : Option (List data_frame_t)) (n_frame n_file : Nat) (addr : Option (List Nat))
    (len flag : Nat) (fuel : Nat) : Option (Option (List data_frame_t)) :=
  match heap with
  | none => some none
  | some data_frames =>
    match data_to_data_frames M crc16 reads addr len
        (init_data_frames data_frames n_frame n_file flag) fuel with
    | none => none
    | some frames => some (some frames)

/-! ## Sample values used to evaluate the definitions -/

/-- A frame whose fields hold arbitrary left-over values, as freshly allocated memory may. -/
def stale_frame : data_frame_t :=
  { header := [9, 9, 9, 9], n_file := 77, n_frame := 5, n_total_frame := 7, flag := 3,
    total_data_len := 99, data_len := 2, data := [8, 8, 8, 8], check_sum := 1 }

/-- A stale frame for a data capacity of 256 bytes. -/
def stale_frame_256 : data_frame_t :=
  { stale_frame with data := List.replicate 256 8 }

/-- The frames `data_to_data_frames` leaves when it chunks the 5 bytes 1 .. 5 with a data
capacity of 4 bytes and the checksum `sum16` over three stale frames. -/
def chunked_sample : List data_frame_t :=
  [{ stale_frame with
      data_len := 4
      data := [1, 2, 3, 4]
      check_sum := 241 },
    { stale_frame with
      data_len := 1
      data := [5, 0, 0, 0]
      check_sum := 233 },
    stale_frame]

/-- The frames `alloc_data_frames` builds for the same payload over two stale frames with
`n_file = 11` and `flag = 1`. -/
def allocated_sample : List data_frame_t :=
  [{ stale_frame with
      header := tp_header
      n_file := 11
      n_frame := 0
      flag := 1
      data_len := 4
      data := [1, 2, 3, 4]
      check_sum := 355 },
    { stale_frame with
      header := tp_header
      n_file := 11
      n_frame := 1
      flag := 1
      data_len := 1
      data := [5, 0, 0, 0]
      check_sum := 348 }]

/-- A checksum used to evaluate the definitions: the byte sum modulo 2^16. -/
def sum16 (bs : List Nat) : Nat := bs.sum % 65536

/-- The fields that `data_to_data_frames` has no business with are the same in `g` as
in `f`. -/
def same_stamps (f g : data_frame_t) : Prop :=
  g.header = f.header ∧ g.n_file = f.n_file ∧ g.n_frame = f.n_frame ∧ g.flag = f.flag
    ∧ g.n_total_frame = f.n_total_frame ∧ g.total_data_len = f.total_data_len

/-! ## Byte order -/

/-- Swap of the two bytes of a 16-bit value. -/
def bswap16 (x : Nat) : Nat := x % 256 * 256 + x / 256 % 256

/-- Reversal of the four bytes of a 32-bit value. -/
def bswap32 (x : Nat) : Nat :=
  x % 256 * 16777216 + x / 256 % 256 * 65536 + x / 65536 % 256 * 256 + x / 16777216 % 256

/-- The libc function `htole16` on a `uint16_t`; `be` tells whether the host is big-endian. -/
def htole16 (be : Bool) (x : Nat) : Nat := if be then bswap16 (x % 65536) else x % 65536

/-- The libc function `le16toh`. -/
def le16toh (be : Bool) (x : Nat) : Nat := if be then bswap16 (x % 65536) else x % 65536

/-- The libc function `htole32` on a `uint32_t`. -/
def htole32 (be : Bool) (x : Nat) : Nat :=
  if be then bswap32 (x % 4294967296) else x % 4294967296

/-- The libc function `le32toh`. -/
def le32toh (be : Bool) (x : Nat) : Nat :=
  if be then bswap32 (x % 4294967296) else x % 4294967296

/-- Number of values of the 24-bit member `n_total_frame.uint24`. -/
def UINT24_MOD : Nat := 2 ^ 24

/-- Bytes of `v` in a field of `n` bytes as they lie in the memory of the host. -/
def host_bytes (be : Bool) (n v : Nat) : List Nat :=
  if be then (le_bytes n v).reverse else le_bytes n v

/-- Value of a little-endian byte string. -/
def le_value : List Nat → Nat
  | [] => 0
  | b :: bs => b + 256 * le_value bs

/-- Value the host reads from the bytes of an integer field. -/
def host_value (be : Bool) (bs : List Nat) : Nat :=
  if be then le_value bs.reverse else le_value bs

/-! ## Control frames and byte images -/

/-- Modelled from the spec: the type `frame_t` of control frames is declared in
`transmission_protocol.h`, which is not among the sources; the fields are those the
code accesses, in the order of the wire layout of the spec. -/
structure frame_t where
  header : List Nat
  n_file : Nat
  n_frame : Nat
  status : Nat
  check_sum : Nat
deriving DecidableEq, Repr

/-- Modelled from the spec: `sizeof(frame_t)`, from the layout header(4), n_file(4),
n_frame(2), status(2), checksum(2). -/
def FRAME_SIZE : Nat := 14

/-- Modelled from the spec: `sizeof(data_frame_t)`, from the layout header(4), n_file(4),
n_frame(2), n_total_frame(3), flag(1), total_data_len(4), data_len(2), data(M),
checksum(2). -/
def DATA_FRAME_SIZE (M : Nat) : Nat := 22 + M

/-- Modelled from the spec: the first `sizeof(frame_t) - sizeof(uint16_t)` bytes of a
control frame in the memory of the host. -/
def frame_body (be : Bool) (f : frame_t) : List Nat :=
  f.header ++ host_bytes be 4 f.n_file ++ host_bytes be 2 f.n_frame ++ host_bytes be 2 f.status

/-- Modelled from the spec: all bytes of a control frame in the memory of the host. -/
def frame_bytes (be : Bool) (f : frame_t) : List Nat :=
  frame_body be f ++ host_bytes be 2 f.check_sum

/-- Modelled from the spec: the control frame that a buffer of `sizeof(frame_t)` bytes
holds. -/
def frame_of_bytes (be : Bool) (bs : List Nat) : frame_t :=
  { header := bs.take 4
    n_file := host_value be ((bs.drop 4).take 4)
    n_frame := host_value be ((bs.drop 8).take 2)
    status := host_value be ((bs.drop 10).take 2)
    check_sum := host_value be ((bs.drop 12).take 2) }

/-- Modelled from the spec: the first `sizeof(data_frame_t) - sizeof(uint16_t)` bytes of
a data frame in the memory of the host; on a little-endian host this is `frame_image`. -/
def data_frame_body (be : Bool) (f : data_frame_t) : List Nat :=
  f.header ++ host_bytes be 4 f.n_file ++ host_bytes be 2 f.n_frame
    ++ host_bytes be 3 f.n_total_frame ++ [f.flag] ++ host_bytes be 4 f.total_data_len
    ++ host_bytes be 2 f.data_len ++ f.data

/-- Modelled from the spec: all bytes of a data frame in the memory of the host. -/
def data_frame_bytes (be : Bool) (f : data_frame_t) : List Nat :=
  data_frame_body be f ++ host_bytes be 2 f.check_sum

/-- Modelled from the spec: the data frame that a buffer of `sizeof(data_frame_t)` bytes
holds. -/
def data_frame_of_bytes (be : Bool) (M : Nat) (bs : List Nat) : data_frame_t :=
  { header := bs.take 4
    n_file := host_value be ((bs.drop 4).take 4)
    n_frame := host_value be ((bs.drop 8).take 2)
    n_total_frame := host_value be ((bs.drop 10).take 3)
    flag := (bs.drop 13).headD 0
    total_data_len := host_value be ((bs.drop 14).take 4)
    data_len := host_value be ((bs.drop 18).take 2)
    data := (bs.drop 20).take M
    check_sum := host_value be ((bs.drop (20 + M)).take 2) }

/-! ## Sending and receiving -/

/-- Lines 49-51 of `send_frame`: the fields are converted to wire order in place. -/
def send_frame_convert (be : Bool) (f : frame_t) : frame_t :=
  let f1 := { f with n_file := htole32 be f.n_file }
  let f2 := { f1 with n_frame := htole16 be f1.n_frame }
  { f2 with status := htole16 be f2.status }

/-- The function `send_frame(fd, frame, timeout)`.  `num` is what `epoll_wait` returns for
`fd` and `timeout`, `wr` what the one `write` returns.  The result is the return value,
the caller's frame after the call, and the bytes handed to `write`, if it was called. -/
def send_frame (be : Bool) (crc16 : List Nat → Nat) (num wr : Int) (frame : frame_t) :
    Int × frame_t × Option (List Nat) :=
  let f0 := { frame with check_sum := crc16 (frame_body be frame) }
  if num < 1 then (-1, f0, none)
  else
    let f1 := send_frame_convert be f0
    (wr, f1, some (frame_bytes be f1))

/-- Lines 63-67 of `send_data_frame`: the fields are converted to wire order in place;
`n_total_frame.uint24` is a 24-bit member. -/
def send_data_frame_convert (be : Bool) (f : data_frame_t) : data_frame_t :=
  let f1 := { f with n_total_frame := htole32 be f.n_total_frame / 256 % UINT24_MOD }
  let f2 := { f1 with n_file := htole32 be f1.n_file }
  let f3 := { f2 with n_frame := htole16 be f2.n_frame }
  let f4 := { f3 with total_data_len := htole32 be f3.total_data_len }
  { f4 with data_len := htole16 be f4.data_len }

/-- The function `send_data_frame(fd, frame, timeout)`, with `num` and `wr` as in
`send_frame`. -/
def send_data_frame (be : Bool) (crc16 : List Nat → Nat) (num wr : Int)
    (frame : data_frame_t) : Int × data_frame_t × Option (List Nat) :=
  let f0 := { frame with check_sum := crc16 (data_frame_body be frame) }
  if num < 1 then (-1, f0, none)
  else
    let f1 := send_data_frame_convert be f0
    (wr, f1, some (data_frame_bytes be f1))

/-- The comparison `n < sizeof(*frame)` of an `ssize_t` with a `size_t`: the signed value
is converted to `size_t` first. -/
def ssize_lt_size (n : Int) (size : Nat) : Bool :=
  decide ((n % (SIZE_MOD : Int)).toNat < size)

/-- Lines 100-102 of `receive_frame`: the fields are converted to host order in place. -/
def receive_frame_convert (be : Bool) (f : frame_t) : frame_t :=
  let f1 := { f with n_file := le32toh be f.n_file }
  let f2 := { f1 with n_frame := le16toh be f1.n_frame }
  { f2 with status := le16toh be f2.status }

/-- The function `receive_frame(fd, frame, timeout)`.  `num` is what `epoll_wait` returns,
`n` what the one `read` returns and `temp` the scratch buffer of `sizeof(*frame)` bytes
after the read.  The result is the return value and the caller's frame after the
call.  The log lines are left out. -/
def receive_frame (be : Bool) (crc16 : List Nat → Nat) (num n : Int) (temp : List Nat)
    (frame : frame_t) : Int × frame_t :=
  if num < 1 then (-1, frame)
  else if ssize_lt_size n FRAME_SIZE = true
      ∨ crc16 (temp.take (FRAME_SIZE - 2)) ≠ host_value be ((temp.drop (FRAME_SIZE - 2)).take 2)
  then (-1, frame)
  else (n, receive_frame_convert be (frame_of_bytes be temp))

/-- Lines 128-132 of `receive_data_frame`: the fields are converted to host order in
place. -/
def receive_data_frame_convert (be : Bool) (f : data_frame_t) : data_frame_t :=
  let f1 := { f with n_total_frame := le32toh be f.n_total_frame / 256 % UINT24_MOD }
  let f2 := { f1 with n_file := le32toh be f1.n_file }
  let f3 := { f2 with n_frame := le16toh be f2.n_frame }
  let f4 := { f3 with total_data_len := le32toh be f3.total_data_len }
  { f4 with data_len := le16toh be f4.data_len }

/-- The function `receive_data_frame(fd, frame, timeout)`, with `num`, `n` and `temp` as in
`receive_frame`. -/
def receive_data_frame (be : Bool) (crc16 : List Nat → Nat) (M : Nat) (num n : Int)
    (temp : List Nat) (frame : data_frame_t) : Int × data_frame_t :=
  if num < 1 then (-1, frame)
  else if ssize_lt_size n (DATA_FRAME_SIZE M) = true
      ∨ crc16 (temp.take (DATA_FRAME_SIZE M - 2))
          ≠ host_value be ((temp.drop (DATA_FRAME_SIZE M - 2)).take 2)
  then (-1, frame)
  else (n, receive_data_frame_convert be (data_frame_of_bytes be M temp))

/-! ## A byte source for the path with a file descriptor -/

/-- The reads of a source that holds `bytes` and hands out `M` bytes per `read` until
fewer remain; `fuel` bounds the number of reads listed.  The read after the last
listed one returns 0 bytes. -/
def source_reads (M : Nat) : Nat → List Nat → List (Option (List Nat))
  | 0, _ => []
  | fuel + 1, bytes =>
    if bytes.length < M then [some bytes]
    else some (bytes.take M) :: source_reads M fuel (bytes.drop M)

/-- A control frame used to evaluate the definitions. -/
def sample_frame : frame_t :=
  { header := tp_header, n_file := 11, n_frame := 2, status := 513, check_sum := 0 }

/-- A control frame of the caller that holds left-over values. -/
def stale_control_frame : frame_t :=
  { header := [9, 9, 9, 9], n_file := 77, n_frame := 5, status := 1, check_sum := 1 }

/-- A data frame with a data capacity of 4 bytes and `n_total_frame = 5`. -/
def sample_data_frame : data_frame_t :=
  { header := tp_header, n_file := 11, n_frame := 0, n_total_frame := 5, flag := 1,
    total_data_len := 3, data_len := 3, data := [1, 2, 3, 0], check_sum := 0 }

/-! ## Lemmas about the frame array and the chunking loop -/

theorem length_update_at (frames : List data_frame_t) (i : Nat) (g : data_frame_t → data_frame_t) :
    (update_at frames i g).length = frames.length := by
  unfold update_at
  cases h : frames[i]? <;> simp

theorem getElem?_update_at (frames : List data_frame_t) (i j : Nat)
    (g : data_frame_t → data_frame_t) :
    (update_at frames i g)[j]? = if j = i then frames[j]?.map g else frames[j]? := by
  unfold update_at
  cases h : frames[i]? with
  | none =>
    by_cases hj : j = i
    · subst hj; simp [h]
    · simp [hj]
  | some f =>
    by_cases hj : j = i
    · subst hj
      have hlt : j < frames.length := by
        by_contra hge
        have : frames[j]? = none := List.getElem?_eq_none (by omega)
        rw [this] at h; cases h
      simp [h, List.getElem?_set, hlt]
    · have hne : i ≠ j := fun e => hj e.symm
      simp [hj, List.getElem?_set, hne]

theorem mem_loop_spec (M : Nat) (crc16 : List Nat → Nat) (addr : List Nat) (bound : Nat)
    (hb : bound < N_FRAME_MOD) :
    ∀ (k i p : Nat) (frames : List data_frame_t) (fuel : Nat), i + k = bound → k < fuel →
      ∃ fr, mem_loop M crc16 addr bound fuel i p frames = some (bound, p + k * M, fr)
        ∧ fr.length = frames.length
        ∧ (∀ j, j < i ∨ bound ≤ j → fr[j]? = frames[j]?)
        ∧ (∀ j, i ≤ j → j < bound →
            fr[j]? = frames[j]?.map (fill_full M crc16 (addr.drop (p + (j - i) * M)))) := by
  intro k
  induction k with
  | zero =>
    intro i p frames fuel hik hf
    obtain ⟨fuel, rfl⟩ : ∃ f, fuel = f + 1 := ⟨fuel - 1, by omega⟩
    have hi : i = bound := by omega
    subst hi
    refine ⟨frames, ?_, rfl, fun _ _ => rfl, ?_⟩
    · simp [mem_loop]
    · intro j h1 h2; omega
  | succ k ih =>
    intro i p frames fuel hik hf
    obtain ⟨fuel, rfl⟩ : ∃ f, fuel = f + 1 := ⟨fuel - 1, by omega⟩
    have hi : i < bound := by omega
    have hmod : (i + 1) % N_FRAME_MOD = i + 1 := Nat.mod_eq_of_lt (by omega)
    obtain ⟨fr, hrun, hlen, hout, hin⟩ :=
      ih (i + 1) (p + M) (update_at frames i (fill_full M crc16 (addr.drop p))) fuel
        (by omega) (by omega)
    refine ⟨fr, ?_, ?_, ?_, ?_⟩
    · rw [mem_loop, if_pos hi, hmod, hrun]
      congr 3
      rw [Nat.succ_mul]; omega
    · rw [hlen, length_update_at]
    · intro j hj
      rw [hout j (by omega), getElem?_update_at, if_neg (by omega)]
    · intro j h1 h2
      by_cases hji : j = i
      · subst hji
        rw [hout j (by omega), getElem?_update_at, if_pos rfl]
        simp
      · rw [hin j (by omega) h2, getElem?_update_at, if_neg hji]
        have : p + M + (j - (i + 1)) * M = p + (j - i) * M := by
          obtain ⟨d, rfl⟩ : ∃ d, j = i + 1 + d := ⟨j - (i + 1), by omega⟩
          have e1 : i + 1 + d - (i + 1) = d := by omega
          have e2 : i + 1 + d - i = d + 1 := by omega
          rw [e1, e2, Nat.succ_mul]; omega
        rw [this]


theorem mem_loop_diverges (M : Nat) (crc16 : List Nat → Nat) (addr : List Nat) (bound : Nat)
    (hb : N_FRAME_MOD ≤ bound) :
    ∀ (fuel i p : Nat) (frames : List data_frame_t), i < N_FRAME_MOD →
      mem_loop M crc16 addr bound fuel i p frames = none := by
  intro fuel
  induction fuel with
  | zero => intro i p frames _; rfl
  | succ fuel ih =>
    intro i p frames hi
    rw [mem_loop, if_pos (by omega)]
    exact ih _ _ _ (Nat.mod_lt _ (by decide))

theorem size_sub_of_le (a b : Nat) (hba : b ≤ a) (ha : a < SIZE_MOD) : size_sub a b = a - b := by
  unfold size_sub
  have hb : b < SIZE_MOD := Nat.lt_of_le_of_lt hba ha
  rw [Nat.mod_eq_of_lt ha, Nat.mod_eq_of_lt hb]
  have : a + SIZE_MOD - b = (a - b) + SIZE_MOD := by omega
  rw [this, Nat.add_mod_right, Nat.mod_eq_of_lt (by omega)]

theorem ceil_div_eq (L M : Nat) (hM : 0 < M) (hL : 0 < L) : (L + M - 1) / M = (L - 1) / M + 1 := by
  have : L + M - 1 = (L - 1) + M := by omega
  rw [this, Nat.add_div_right _ hM]

theorem div_mul_le_pred (L M : Nat) (hL : 0 < L) : (L - 1) / M * M < L := by
  have := Nat.div_mul_le_self (L - 1) M
  omega

theorem payload_lt_size (L M : Nat) (hM : 0 < M) (hM16 : M < UINT16_MOD)
    (hb : (L - 1) / M < N_FRAME_MOD) : L < 2 ^ 32 := by
  have h1 : L - 1 < ((L - 1) / M + 1) * M := by
    have := Nat.lt_div_mul_add (a := L - 1) hM
    rw [Nat.succ_mul]; exact this
  have h2 : ((L - 1) / M + 1) * M ≤ N_FRAME_MOD * M := Nat.mul_le_mul_right _ (by omega)
  have h3 : N_FRAME_MOD * M ≤ N_FRAME_MOD * (UINT16_MOD - 1) := Nat.mul_le_mul_left _ (by omega)
  have h4 : N_FRAME_MOD * (UINT16_MOD - 1) < 2 ^ 32 := by decide
  omega

theorem data_to_data_frames_mem (M : Nat) (crc16 : List Nat → Nat)
    (reads : List (Option (List Nat))) (addr : List Nat) (L : Nat) (frames : List data_frame_t)
    (hM : 0 < M) (hM16 : M < UINT16_MOD) (hL : 0 < L) (hb : (L - 1) / M < N_FRAME_MOD)
    (fuel : Nat) (hfuel : (L - 1) / M < fuel) :
    ∃ fr, data_to_data_frames M crc16 reads (some addr) L frames fuel = some fr
      ∧ fr.length = frames.length
      ∧ (∀ j, (L - 1) / M < j → fr[j]? = frames[j]?)
      ∧ (∀ j, j < (L - 1) / M →
          fr[j]? = frames[j]?.map (fill_full M crc16 (addr.drop (j * M))))
      ∧ fr[(L - 1) / M]? = frames[(L - 1) / M]?.map
          (fill_last M crc16 L ((L - 1) / M) (addr.drop ((L - 1) / M * M))) := by
  have hL32 := payload_lt_size L M hM hM16 hb
  have hLs : L < SIZE_MOD := Nat.lt_of_lt_of_le hL32 (by decide)
  have h1 : size_sub L 1 = L - 1 := size_sub_of_le L 1 hL hLs
  have hn : (L - 1) / M + 1 < SIZE_MOD := by
    have : N_FRAME_MOD + 1 < SIZE_MOD := by decide
    omega
  obtain ⟨fr, hrun, hlen, hout, hin⟩ :=
    mem_loop_spec M crc16 addr ((L - 1) / M) hb ((L - 1) / M) 0 0 frames fuel (by omega) hfuel
  refine ⟨update_at fr ((L - 1) / M)
      (fill_last M crc16 L ((L - 1) / M) (addr.drop ((L - 1) / M * M))), ?_, ?_, ?_, ?_, ?_⟩
  · unfold data_to_data_frames
    have h2 : size_sub ((L - 1) / M + 1) 1 = (L - 1) / M := by
      rw [size_sub_of_le _ 1 (Nat.succ_pos _) hn]; rfl
    simp only [h1, Nat.mod_eq_of_lt hn, h2, hrun, Nat.zero_add]
  · rw [length_update_at, hlen]
  · intro j hj
    rw [getElem?_update_at, if_neg (by omega), hout j (by omega)]
  · intro j hj
    rw [getElem?_update_at, if_neg (by omega), hin j (by omega) hj]
    simp
  · rw [getElem?_update_at, if_pos rfl, hout _ (Or.inr (Nat.le_refl _))]

/-! ## Lemmas about the frames the chunker writes -/

theorem last_len_bounds (L M : Nat) (hM : 0 < M) (hL : 0 < L) :
    0 < L - (L - 1) / M * M ∧ L - (L - 1) / M * M ≤ M := by
  have h1 := Nat.div_add_mod (L - 1) M
  have h2 := Nat.mod_lt (L - 1) hM
  rw [Nat.mul_comm] at h1
  constructor <;> omega

theorem last_len_eq (L M : Nat) (hM : 0 < M) (hL : 0 < L) :
    L - (L - 1) / M * M = if L % M = 0 then M else L % M := by
  have h1 := Nat.div_add_mod (L - 1) M
  rw [Nat.mul_comm] at h1
  have h2 : (L - 1) % M + 1 = if L % M = 0 then M else L % M := by
    have h3 := Nat.mod_add_div L M
    have h4 := Nat.mod_lt L hM
    split
    · rename_i h0
      have hq : 0 < L / M := by
        rcases Nat.eq_zero_or_pos (L / M) with hz | hp
        · rw [hz, h0] at h3; omega
        · exact hp
      obtain ⟨k, hk⟩ : ∃ k, L / M = k + 1 := ⟨L / M - 1, by omega⟩
      have h5 : L - 1 = (M - 1) + M * k := by
        rw [hk, h0, Nat.mul_succ] at h3; omega
      rw [h5, Nat.add_mul_mod_self_left, Nat.mod_eq_of_lt (by omega)]; omega
    · rename_i h0
      have h5 : L - 1 = (L % M - 1) + M * (L / M) := by omega
      have h6 : (L - 1) % M = L % M - 1 := by
        rw [h5, Nat.add_mul_mod_self_left, Nat.mod_eq_of_lt (by omega)]
      omega
  omega

theorem fill_last_data_len (M : Nat) (crc16 : List Nat → Nat) (L : Nat) (p : List Nat)
    (f : data_frame_t) (hM : 0 < M) (hM16 : M < UINT16_MOD) (hL : 0 < L) (hLs : L < SIZE_MOD) :
    (fill_last M crc16 L ((L - 1) / M) p f).data_len = L - (L - 1) / M * M := by
  have hb := last_len_bounds L M hM hL
  have hle : (L - 1) / M * M ≤ L := Nat.le_of_lt (div_mul_le_pred L M hL)
  show size_sub L ((L - 1) / M * M) % UINT16_MOD = _
  rw [size_sub_of_le _ _ hle hLs, Nat.mod_eq_of_lt (by omega)]

theorem fill_last_data (M : Nat) (crc16 : List Nat → Nat) (L i : Nat) (p : List Nat)
    (f : data_frame_t) :
    (fill_last M crc16 L i p f).data
      = memset_zero (memcpy f.data p (fill_last M crc16 L i p f).data_len)
          (fill_last M crc16 L i p f).data_len (M - (fill_last M crc16 L i p f).data_len) := rfl

theorem fill_full_data_len (M : Nat) (crc16 : List Nat → Nat) (p : List Nat) (f : data_frame_t)
    (hM16 : M < UINT16_MOD) : (fill_full M crc16 p f).data_len = M :=
  Nat.mod_eq_of_lt hM16

theorem fill_full_data (M : Nat) (crc16 : List Nat → Nat) (p : List Nat) (f : data_frame_t) :
    (fill_full M crc16 p f).data = memcpy f.data p M := rfl

theorem fill_full_check_sum (M : Nat) (crc16 : List Nat → Nat) (p : List Nat) (f : data_frame_t) :
    (fill_full M crc16 p f).check_sum = crc16 (frame_image (fill_full M crc16 p f)) := rfl

theorem fill_last_check_sum (M : Nat) (crc16 : List Nat → Nat) (L i : Nat) (p : List Nat)
    (f : data_frame_t) :
    (fill_last M crc16 L i p f).check_sum = crc16 (frame_image (fill_last M crc16 L i p f)) := rfl

theorem memcpy_take (dst src : List Nat) (n : Nat) (h : n ≤ src.length) :
    (memcpy dst src n).take n = src.take n := by
  unfold memcpy
  rw [List.take_append_of_le_length (by simp; omega)]
  simp

theorem memset_zero_take (dst : List Nat) (off n : Nat) (h : off ≤ dst.length) :
    (memset_zero dst off n).take off = dst.take off := by
  unfold memset_zero
  rw [List.append_assoc, List.take_append_of_le_length (by simp; omega)]
  simp

theorem memset_zero_getElem? (dst : List Nat) (off n k : Nat) (h : off ≤ dst.length)
    (h1 : off ≤ k) (h2 : k < off + n) : (memset_zero dst off n)[k]? = some 0 := by
  unfold memset_zero
  have hlen : (dst.take off).length = off := by simp; omega
  rw [List.append_assoc, List.getElem?_append_right (by omega), hlen,
    List.getElem?_append_left (by simp; omega)]
  rw [List.getElem?_replicate, if_pos (by omega)]

theorem chunk_result (M : Nat) (crc16 : List Nat → Nat)
    (reads : List (Option (List Nat))) (addr : List Nat) (L : Nat) (frames : List data_frame_t)
    (hM : 0 < M) (hM16 : M < UINT16_MOD) (hL : 0 < L) (hb : (L - 1) / M < N_FRAME_MOD)
    (hfr : (L - 1) / M < frames.length) (fuel : Nat) (hfuel : (L - 1) / M < fuel) :
    ∃ fr, data_to_data_frames M crc16 reads (some addr) L frames fuel = some fr
      ∧ fr.length = frames.length
      ∧ (∀ j, (L - 1) / M < j → fr[j]? = frames[j]?)
      ∧ (∀ j, j < (L - 1) / M → ∃ f, frames[j]? = some f
          ∧ fr[j]? = some (fill_full M crc16 (addr.drop (j * M)) f))
      ∧ (∃ f, frames[(L - 1) / M]? = some f
          ∧ fr[(L - 1) / M]? = some
              (fill_last M crc16 L ((L - 1) / M) (addr.drop ((L - 1) / M * M)) f)) := by
  obtain ⟨fr, hrun, hlen, hout, hin, hlast⟩ :=
    data_to_data_frames_mem M crc16 reads addr L frames hM hM16 hL hb fuel hfuel
  refine ⟨fr, hrun, hlen, hout, ?_, ?_⟩
  · intro j hj
    have hjl : j < frames.length := by omega
    refine ⟨frames[j], List.getElem?_eq_getElem hjl, ?_⟩
    rw [hin j hj, List.getElem?_eq_getElem hjl]; rfl
  · refine ⟨frames[(L - 1) / M], List.getElem?_eq_getElem hfr, ?_⟩
    rw [hlast, List.getElem?_eq_getElem hfr]; rfl

theorem full_chunk_fits (L M j : Nat) (hL : 0 < L) (hj : j < (L - 1) / M) :
    j * M + M ≤ L := by
  have h1 : (j + 1) * M ≤ (L - 1) / M * M := Nat.mul_le_mul_right _ hj
  have h2 := Nat.div_mul_le_self (L - 1) M
  rw [Nat.succ_mul] at h1
  omega

theorem fill_full_take (M : Nat) (crc16 : List Nat → Nat) (addr : List Nat) (off : Nat)
    (f : data_frame_t) (h : off + M ≤ addr.length) :
    (fill_full M crc16 (addr.drop off) f).data.take M = (addr.drop off).take M := by
  rw [fill_full_data, memcpy_take _ _ _ (by simp; omega)]

theorem fill_last_take (M : Nat) (crc16 : List Nat → Nat) (addr : List Nat) (L : Nat)
    (f : data_frame_t) (hM : 0 < M) (hM16 : M < UINT16_MOD) (hL : 0 < L) (hLs : L < SIZE_MOD)
    (hlen : addr.length = L) :
    (fill_last M crc16 L ((L - 1) / M) (addr.drop ((L - 1) / M * M)) f).data.take
        (L - (L - 1) / M * M)
      = (addr.drop ((L - 1) / M * M)).take (L - (L - 1) / M * M) := by
  rw [fill_last_data, fill_last_data_len M crc16 L _ f hM hM16 hL hLs]
  have hsrc : L - (L - 1) / M * M ≤ (addr.drop ((L - 1) / M * M)).length := by simp; omega
  rw [memset_zero_take _ _ _ (by unfold memcpy; simp; omega), memcpy_take _ _ _ hsrc]

theorem memcpy_at_step (addr out src : List Nat) (a n : Nat) (ha : a ≤ addr.length)
    (hsrc : src.take n = (addr.drop a).take n) :
    memcpy_at (addr.take a ++ out.drop a) a src n = addr.take (a + n) ++ out.drop (a + n) := by
  unfold memcpy_at
  have hlen : (addr.take a).length = a := by simp; omega
  have h1 : (addr.take a ++ out.drop a).take a = addr.take a := by
    rw [List.take_append_of_le_length (by omega), List.take_of_length_le (by omega)]
  have h2 : (addr.take a ++ out.drop a).drop (a + n) = out.drop (a + n) := by
    rw [List.drop_append_eq_append_drop, List.drop_of_length_le (by omega), hlen]
    simp [Nat.add_comm]
  rw [h1, h2, hsrc, List.take_add]

theorem data_frames_to_data_loop_succ (fr : List data_frame_t) (k : Nat) (out : List Nat)
    (g : data_frame_t) (hg : fr[k]? = some g) :
    data_frames_to_data_loop fr (k + 1) out
      = ((data_frames_to_data_loop fr k out).1 + g.data_len,
          memcpy_at (data_frames_to_data_loop fr k out).2 (data_frames_to_data_loop fr k out).1
            g.data g.data_len) := by
  unfold data_frames_to_data_loop
  rw [List.range_succ, List.foldl_append]
  simp [hg]

theorem data_frame_to_data_len_succ (fr : List data_frame_t) (k : Nat)
    (g : data_frame_t) (hg : fr[k]? = some g) :
    data_frame_to_data_len fr (k + 1) = (data_frame_to_data_len fr k + g.data_len) % SIZE_MOD := by
  unfold data_frame_to_data_len
  rw [List.range_succ, List.foldl_append]
  simp [hg]

/-- Reassembly of frames that hold consecutive chunks of `addr`: after `k` full frames
the output starts with the first `k * M` bytes of `addr`. -/
theorem reassemble_full (M : Nat) (addr out : List Nat) (fr : List data_frame_t) (b : Nat)
    (hbl : b * M ≤ addr.length)
    (hfull : ∀ j, j < b → ∃ g, fr[j]? = some g ∧ g.data_len = M
      ∧ g.data.take M = (addr.drop (j * M)).take M) :
    ∀ k, k ≤ b →
      data_frames_to_data_loop fr k out = (k * M, addr.take (k * M) ++ out.drop (k * M)) := by
  intro k
  induction k with
  | zero => intro _; simp [data_frames_to_data_loop]
  | succ k ih =>
    intro hk
    obtain ⟨g, hg, hdl, hdata⟩ := hfull k (by omega)
    have hkM : k * M ≤ addr.length :=
      Nat.le_trans (Nat.mul_le_mul_right _ (by omega)) hbl
    rw [data_frames_to_data_loop_succ fr k out g hg, ih (by omega), hdl]
    simp only
    rw [memcpy_at_step addr out g.data (k * M) M hkM hdata, Nat.succ_mul]

theorem data_len_sum_full (M : Nat) (fr : List data_frame_t) (b : Nat)
    (hbl : b * M < SIZE_MOD)
    (hfull : ∀ j, j < b → ∃ g, fr[j]? = some g ∧ g.data_len = M) :
    ∀ k, k ≤ b → data_frame_to_data_len fr k = k * M := by
  intro k
  induction k with
  | zero => intro _; simp [data_frame_to_data_len]
  | succ k ih =>
    intro hk
    obtain ⟨g, hg, hdl⟩ := hfull k (by omega)
    have hkM : (k + 1) * M ≤ b * M := Nat.mul_le_mul_right _ hk
    rw [data_frame_to_data_len_succ fr k g hg, ih (by omega), hdl, ← Nat.succ_mul]
    exact Nat.mod_eq_of_lt (Nat.lt_of_le_of_lt hkM hbl)


theorem data_frame_to_data_len_eq_sum (gs : List data_frame_t)
    (hdl : ∀ g ∈ gs, g.data_len < UINT16_MOD) :
    ∀ m, m ≤ gs.length → m < N_FRAME_MOD →
      data_frame_to_data_len gs m = ((gs.take m).map (fun g => g.data_len)).sum
        ∧ ((gs.take m).map (fun g => g.data_len)).sum ≤ m * UINT16_MOD := by
  intro m
  induction m with
  | zero => intro _ _; simp [data_frame_to_data_len]
  | succ m ih =>
    intro hm hm16
    have hml : m < gs.length := by omega
    obtain ⟨h1, h2⟩ := ih (by omega) (by omega)
    have hg : gs[m]? = some gs[m] := List.getElem?_eq_getElem hml
    have hgl : gs[m].data_len < UINT16_MOD := hdl _ (List.getElem_mem hml)
    have hsum : ((gs.take (m + 1)).map (fun g => g.data_len)).sum
        = ((gs.take m).map (fun g => g.data_len)).sum + gs[m].data_len := by
      rw [List.take_succ, hg, List.map_append, List.sum_append]
      simp only [Option.toList, List.map_cons, List.map_nil, List.sum_cons, List.sum_nil,
        Nat.add_zero]
    have hN : N_FRAME_MOD * UINT16_MOD < SIZE_MOD := by decide
    have hmul : (m + 1) * UINT16_MOD ≤ N_FRAME_MOD * UINT16_MOD :=
      Nat.mul_le_mul_right _ (by omega)
    have hle : ((gs.take m).map (fun g => g.data_len)).sum + gs[m].data_len
        ≤ (m + 1) * UINT16_MOD := by
      rw [Nat.succ_mul]; omega
    refine ⟨?_, ?_⟩
    · rw [data_frame_to_data_len_succ gs m _ hg, h1, hsum]
      exact Nat.mod_eq_of_lt (by omega)
    · rw [hsum]; exact hle

theorem data_to_data_frames_diverges (M : Nat) (crc16 : List Nat → Nat)
    (reads : List (Option (List Nat))) (addr : List Nat) (L : Nat) (frames : List data_frame_t)
    (hL : 0 < L) (hLs : L < SIZE_MOD) (hb : N_FRAME_MOD ≤ (L - 1) / M) (fuel : Nat) :
    data_to_data_frames M crc16 reads (some addr) L frames fuel = none := by
  have h1 : size_sub L 1 = L - 1 := size_sub_of_le L 1 hL hLs
  have hn : (L - 1) / M + 1 < SIZE_MOD := by
    have := Nat.div_le_self (L - 1) M
    omega
  have h2 : size_sub ((L - 1) / M + 1) 1 = (L - 1) / M := by
    rw [size_sub_of_le _ 1 (Nat.succ_pos _) hn]; rfl
  unfold data_to_data_frames
  simp only [h1, Nat.mod_eq_of_lt hn, h2]
  rw [mem_loop_diverges M crc16 addr _ hb fuel 0 0 frames (by decide)]

theorem last_chunk_take (addr : List Nat) (L M : Nat) (hM : 0 < M) (hL : 0 < L)
    (hlen : addr.length = L) :
    (addr.drop ((L - 1) / M * M)).take (L - (L - 1) / M * M)
      = (addr.drop ((L - 1) / M * M)).take M := by
  have hb := last_len_bounds L M hM hL
  rw [List.take_of_length_le (by simp; omega), List.take_of_length_le (by simp; omega)]

theorem data_len_list_sum_full (M : Nat) (fr : List data_frame_t) (b : Nat)
    (hfull : ∀ j, j < b → ∃ g, fr[j]? = some g ∧ g.data_len = M) :
    ∀ k, k ≤ b → ((fr.take k).map (fun g => g.data_len)).sum = k * M := by
  intro k
  induction k with
  | zero => intro _; simp
  | succ k ih =>
    intro hk
    obtain ⟨g, hg, hdl⟩ := hfull k (by omega)
    rw [List.take_succ, hg, List.map_append, List.sum_append, ih (by omega), Nat.succ_mul]
    simp only [Option.toList, List.map_cons, List.map_nil, List.sum_cons, List.sum_nil,
      Nat.add_zero, hdl]

theorem init_fold_getElem? (frames : List data_frame_t) (n n_file flag : Nat) :
    ∀ k j, ((List.range k).foldl
        (fun frames i => update_at frames i (init_frame n n_file flag i)) frames)[j]?
      = if j < k then frames[j]?.map (init_frame n n_file flag j) else frames[j]? := by
  intro k
  induction k with
  | zero => intro j; simp
  | succ k ih =>
    intro j
    rw [List.range_succ, List.foldl_append]
    simp only [List.foldl_cons, List.foldl_nil]
    rw [getElem?_update_at, ih j]
    by_cases hjk : j = k
    · subst hjk; simp
    · by_cases hlt : j < k
      · simp [hjk, hlt, Nat.lt_succ_of_lt hlt]
      · have : ¬ j < k + 1 := by omega
        simp [hjk, hlt, this]

theorem init_data_frames_getElem? (frames : List data_frame_t) (n n_file flag j : Nat) :
    (init_data_frames frames n n_file flag)[j]?
      = if j < n then frames[j]?.map (init_frame n n_file flag j) else frames[j]? :=
  init_fold_getElem? frames n n_file flag n j

theorem init_data_frames_length (frames : List data_frame_t) (n n_file flag : Nat) :
    (init_data_frames frames n n_file flag).length = frames.length := by
  unfold init_data_frames
  generalize List.range n = is
  induction is generalizing frames with
  | nil => rfl
  | cons i is ih => rw [List.foldl_cons, ih, length_update_at]

theorem mem_loop_mono (M : Nat) (crc16 : List Nat → Nat) (addr : List Nat) (bound k : Nat) :
    ∀ (fuel i p : Nat) (frames : List data_frame_t) (r : Nat × Nat × List data_frame_t),
      mem_loop M crc16 addr bound fuel i p frames = some r →
      mem_loop M crc16 addr bound (fuel + k) i p frames = some r := by
  intro fuel
  induction fuel with
  | zero => intro i p frames r h; simp [mem_loop] at h
  | succ fuel ih =>
    intro i p frames r h
    rw [Nat.add_right_comm]
    rw [mem_loop] at h ⊢
    by_cases hi : i < bound
    · rw [if_pos hi] at h ⊢
      exact ih _ _ _ r h
    · rw [if_neg hi] at h ⊢
      exact h

theorem data_to_data_frames_mono (M : Nat) (crc16 : List Nat → Nat)
    (reads : List (Option (List Nat))) (addr : List Nat) (L : Nat) (frames : List data_frame_t)
    (fuel k : Nat) (fr : List data_frame_t)
    (h : data_to_data_frames M crc16 reads (some addr) L frames fuel = some fr) :
    data_to_data_frames M crc16 reads (some addr) L frames (fuel + k) = some fr := by
  unfold data_to_data_frames at h ⊢
  simp only at h ⊢
  cases hrun : mem_loop M crc16 addr (size_sub ((size_sub L 1 / M + 1) % SIZE_MOD) 1) fuel 0 0
      frames with
  | none => rw [hrun] at h; cases h
  | some r =>
    rw [hrun] at h
    rw [mem_loop_mono M crc16 addr _ k fuel 0 0 frames r hrun]
    exact h

theorem returns_frame_count (M : Nat) (crc16 : List Nat → Nat)
    (reads : List (Option (List Nat))) (addr : List Nat) (L : Nat) (frames : List data_frame_t)
    (fuel : Nat) (fr : List data_frame_t) (hL : 0 < L) (hLs : L < SIZE_MOD)
    (h : data_to_data_frames M crc16 reads (some addr) L frames fuel = some fr) :
    (L - 1) / M < N_FRAME_MOD := by
  by_contra hb
  rw [data_to_data_frames_diverges M crc16 reads addr L frames hL hLs (by omega) fuel] at h
  cases h

/-- What a returned frame array looks like, for any payload length of type `size_t`. -/
theorem returned_frames (M : Nat) (crc16 : List Nat → Nat)
    (reads : List (Option (List Nat))) (addr : List Nat) (L : Nat) (frames : List data_frame_t)
    (fuel : Nat) (fr : List data_frame_t)
    (hM : 0 < M) (hM16 : M < UINT16_MOD) (hL : 0 < L) (hLs : L < SIZE_MOD)
    (hfr : (L - 1) / M < frames.length)
    (h : data_to_data_frames M crc16 reads (some addr) L frames fuel = some fr) :
    fr.length = frames.length
      ∧ (∀ j, (L - 1) / M < j → fr[j]? = frames[j]?)
      ∧ (∀ j, j < (L - 1) / M → ∃ f, frames[j]? = some f
          ∧ fr[j]? = some (fill_full M crc16 (addr.drop (j * M)) f))
      ∧ (∃ f, frames[(L - 1) / M]? = some f
          ∧ fr[(L - 1) / M]? = some
              (fill_last M crc16 L ((L - 1) / M) (addr.drop ((L - 1) / M * M)) f)) := by
  have hb := returns_frame_count M crc16 reads addr L frames fuel fr hL hLs h
  obtain ⟨fr', hrun, hrest⟩ :=
    chunk_result M crc16 reads addr L frames hM hM16 hL hb hfr (fuel + ((L - 1) / M + 1))
      (by omega)
  rw [data_to_data_frames_mono M crc16 reads addr L frames fuel _ fr h] at hrun
  cases hrun
  exact hrest

theorem fill_full_stamps (M : Nat) (crc16 : List Nat → Nat) (p : List Nat) (f : data_frame_t) :
    (fill_full M crc16 p f).header = f.header ∧ (fill_full M crc16 p f).n_file = f.n_file
      ∧ (fill_full M crc16 p f).n_frame = f.n_frame ∧ (fill_full M crc16 p f).flag = f.flag
      ∧ (fill_full M crc16 p f).n_total_frame = f.n_total_frame
      ∧ (fill_full M crc16 p f).total_data_len = f.total_data_len :=
  ⟨rfl, rfl, rfl, rfl, rfl, rfl⟩

theorem fill_last_stamps (M : Nat) (crc16 : List Nat → Nat) (L i : Nat) (p : List Nat)
    (f : data_frame_t) :
    (fill_last M crc16 L i p f).header = f.header ∧ (fill_last M crc16 L i p f).n_file = f.n_file
      ∧ (fill_last M crc16 L i p f).n_frame = f.n_frame
      ∧ (fill_last M crc16 L i p f).flag = f.flag
      ∧ (fill_last M crc16 L i p f).n_total_frame = f.n_total_frame
      ∧ (fill_last M crc16 L i p f).total_data_len = f.total_data_len :=
  ⟨rfl, rfl, rfl, rfl, rfl, rfl⟩

/-- Every frame below the frame count of a returned array is a filled frame: it carries
the checksum of its own image and the stamps of the frame it was made from. -/
theorem returned_frame_at (M : Nat) (crc16 : List Nat → Nat)
    (reads : List (Option (List Nat))) (addr : List Nat) (L : Nat) (frames : List data_frame_t)
    (fuel : Nat) (fr : List data_frame_t)
    (hM : 0 < M) (hM16 : M < UINT16_MOD) (hL : 0 < L) (hLs : L < SIZE_MOD)
    (hfr : (L - 1) / M < frames.length)
    (h : data_to_data_frames M crc16 reads (some addr) L frames fuel = some fr)
    (j : Nat) (hj : j ≤ (L - 1) / M) :
    ∃ f g, frames[j]? = some f ∧ fr[j]? = some g
      ∧ g.check_sum = crc16 (frame_image g)
      ∧ g.header = f.header ∧ g.n_file = f.n_file ∧ g.n_frame = f.n_frame ∧ g.flag = f.flag
      ∧ g.n_total_frame = f.n_total_frame ∧ g.total_data_len = f.total_data_len := by
  obtain ⟨-, -, hfull, f, hf, hlast⟩ :=
    returned_frames M crc16 reads addr L frames fuel fr hM hM16 hL hLs hfr h
  rcases Nat.lt_or_ge j ((L - 1) / M) with hlt | hge
  · obtain ⟨f', hf', hg⟩ := hfull j hlt
    exact ⟨f', _, hf', hg, fill_full_check_sum M crc16 _ f', fill_full_stamps M crc16 _ f'⟩
  · have hj' : j = (L - 1) / M := by omega
    subst hj'
    exact ⟨f, _, hf, hlast, fill_last_check_sum M crc16 _ _ _ f, fill_last_stamps M crc16 _ _ _ f⟩

theorem init_data_frames_at (frames : List data_frame_t) (n n_file flag j : Nat)
    (hn : n ≤ N_FRAME_MOD) (hfr : n ≤ frames.length) (hj : j < n) :
    ∃ f g, frames[j]? = some f ∧ (init_data_frames frames n n_file flag)[j]? = some g
      ∧ g.header = memcpy f.header tp_header tp_header.length
      ∧ g.n_file = n_file ∧ g.n_frame = id_to_n_frame j n ∧ g.flag = flag
      ∧ g.n_total_frame = f.n_total_frame ∧ g.total_data_len = f.total_data_len := by
  have hjl : j < frames.length := by omega
  refine ⟨frames[j], init_frame n n_file flag j frames[j], List.getElem?_eq_getElem hjl, ?_,
    rfl, rfl, ?_, rfl, rfl, rfl⟩
  · rw [init_data_frames_getElem?, if_pos hj, List.getElem?_eq_getElem hjl]; rfl
  · show id_to_n_frame (j % N_FRAME_MOD) n = id_to_n_frame j n
    rw [Nat.mod_eq_of_lt (by omega)]

theorem memcpy_tp_header (hdr : List Nat) (h : hdr.length = 4) :
    memcpy hdr tp_header tp_header.length = tp_header := by
  unfold memcpy
  rw [List.drop_of_length_le (by rw [h]; decide)]
  simp

theorem alloc_returns (M : Nat) (crc16 : List Nat → Nat) (reads : List (Option (List Nat)))
    (hp : List data_frame_t) (n n_file : Nat) (addr : List Nat) (L flag fuel : Nat)
    (fr : List data_frame_t) :
    alloc_data_frames M crc16 reads (some hp) n n_file (some addr) L flag fuel = some (some fr)
      ↔ data_to_data_frames M crc16 reads (some addr) L
          (init_data_frames hp n n_file flag) fuel = some fr := by
  unfold alloc_data_frames
  simp only
  cases data_to_data_frames M crc16 reads (some addr) L (init_data_frames hp n n_file flag) fuel
    <;> simp

theorem chunked_data_len_sum (M : Nat) (crc16 : List Nat → Nat) (addr : List Nat) (L : Nat)
    (frames fr : List data_frame_t)
    (hM : 0 < M) (hM16 : M < UINT16_MOD) (hL : 0 < L) (hLs : L < SIZE_MOD)
    (hfull : ∀ j, j < (L - 1) / M → ∃ f, frames[j]? = some f
      ∧ fr[j]? = some (fill_full M crc16 (addr.drop (j * M)) f))
    (hlast : ∃ f, frames[(L - 1) / M]? = some f
      ∧ fr[(L - 1) / M]? = some
          (fill_last M crc16 L ((L - 1) / M) (addr.drop ((L - 1) / M * M)) f)) :
    ((fr.take ((L - 1) / M + 1)).map (fun g => g.data_len)).sum = L := by
  obtain ⟨f, -, hlast⟩ := hlast
  have hbL := div_mul_le_pred L M hL
  have hfull' : ∀ j, j < (L - 1) / M → ∃ g, fr[j]? = some g ∧ g.data_len = M := by
    intro j hj
    obtain ⟨f', -, hg⟩ := hfull j hj
    exact ⟨_, hg, fill_full_data_len M crc16 _ f' hM16⟩
  have hdl := fill_last_data_len M crc16 L (addr.drop ((L - 1) / M * M)) f hM hM16 hL hLs
  rw [List.take_succ, hlast, List.map_append, List.sum_append,
    data_len_list_sum_full M fr _ hfull' _ (Nat.le_refl _)]
  simp only [Option.toList, List.map_cons, List.map_nil, List.sum_cons, List.sum_nil,
    Nat.add_zero, hdl]
  omega
/-! ## Lemmas about byte order -/

theorem bswap16_bytes (a b : Nat) (ha : a < 256) (hb : b < 256) :
    bswap16 (a + 256 * b) = b + 256 * a := by
  unfold bswap16
  omega

theorem bswap16_bswap16 (x : Nat) (h : x < 65536) : bswap16 (bswap16 x % 65536) = x := by
  obtain ⟨a, b, ha, hb, rfl⟩ : ∃ a b, a < 256 ∧ b < 256 ∧ x = a + 256 * b :=
    ⟨x % 256, x / 256, by omega, by omega, by omega⟩
  rw [bswap16_bytes a b ha hb, Nat.mod_eq_of_lt (by omega), bswap16_bytes b a hb ha]

theorem bswap32_bytes (a b c d : Nat) (ha : a < 256) (hb : b < 256) (hc : c < 256)
    (hd : d < 256) :
    bswap32 (a + 256 * b + 65536 * c + 16777216 * d)
      = d + 256 * c + 65536 * b + 16777216 * a := by
  unfold bswap32
  omega

theorem bytes_of_uint32 (x : Nat) (h : x < 4294967296) :
    ∃ a b c d, a < 256 ∧ b < 256 ∧ c < 256 ∧ d < 256
      ∧ x = a + 256 * b + 65536 * c + 16777216 * d :=
  ⟨x % 256, x / 256 % 256, x / 65536 % 256, x / 16777216, by omega, by omega, by omega,
    by omega, by omega⟩

theorem bswap32_bswap32 (x : Nat) (h : x < 4294967296) :
    bswap32 (bswap32 x % 4294967296) = x := by
  obtain ⟨a, b, c, d, ha, hb, hc, hd, rfl⟩ := bytes_of_uint32 x h
  rw [bswap32_bytes a b c d ha hb hc hd, Nat.mod_eq_of_lt (by omega),
    bswap32_bytes d c b a hd hc hb ha]

theorem le16toh_htole16 (be : Bool) (x : Nat) (h : x < 65536) :
    le16toh be (htole16 be x) = x := by
  unfold le16toh htole16
  cases be
  · simp [Nat.mod_eq_of_lt h]
  · simp only [if_true, Nat.mod_eq_of_lt h]
    exact bswap16_bswap16 x h

theorem le32toh_htole32 (be : Bool) (x : Nat) (h : x < 4294967296) :
    le32toh be (htole32 be x) = x := by
  unfold le32toh htole32
  cases be
  · simp [Nat.mod_eq_of_lt h]
  · simp only [if_true, Nat.mod_eq_of_lt h]
    exact bswap32_bswap32 x h

/-- On a little-endian host the two conversions of `n_total_frame` shift it right by
16 bits in all. -/
theorem n_total_frame_round_trip_le (f : data_frame_t) (h : f.n_total_frame < UINT24_MOD) :
    (receive_data_frame_convert false (send_data_frame_convert false f)).n_total_frame
      = f.n_total_frame / 65536 := by
  show le32toh false (htole32 false f.n_total_frame / 256 % UINT24_MOD) / 256 % UINT24_MOD = _
  unfold le32toh htole32 UINT24_MOD at *
  simp only [Bool.false_eq_true, if_false]
  omega

/-- What `htole32` and `le32toh` do to a value given by its bytes on a big-endian host. -/
theorem bswap32_of_bytes_be (a b c d : Nat) (ha : a < 256) (hb : b < 256) (hc : c < 256)
    (hd : d < 256) :
    htole32 true (a + 256 * b + 65536 * c + 16777216 * d)
        = d + 256 * c + 65536 * b + 16777216 * a
      ∧ le32toh true (a + 256 * b + 65536 * c + 16777216 * d)
        = d + 256 * c + 65536 * b + 16777216 * a := by
  unfold le32toh htole32
  simp only [if_true]
  rw [Nat.mod_eq_of_lt (by omega), bswap32_bytes a b c d ha hb hc hd]
  exact ⟨rfl, rfl⟩

/-- On a big-endian host the two conversions of `n_total_frame` give the value back. -/
theorem n_total_frame_round_trip_be (f : data_frame_t) (h : f.n_total_frame < UINT24_MOD) :
    (receive_data_frame_convert true (send_data_frame_convert true f)).n_total_frame
      = f.n_total_frame := by
  show le32toh true (htole32 true f.n_total_frame / 256 % UINT24_MOD) / 256 % UINT24_MOD = _
  unfold UINT24_MOD at *
  obtain ⟨a, b, c, d, ha, hb, hc, hd, hx⟩ := bytes_of_uint32 f.n_total_frame (by omega)
  have hd0 : d = 0 := by omega
  subst hd0
  have s1 := (bswap32_of_bytes_be a b c 0 ha hb hc (by omega)).1
  have s2 : (0 + 256 * c + 65536 * b + 16777216 * a) / 256 % 2 ^ 24
      = c + 256 * b + 65536 * a + 16777216 * 0 := by omega
  have s3 := (bswap32_of_bytes_be c b a 0 hc hb ha (by omega)).2
  rw [hx, s1, s2, s3]
  omega

/-! ## Lemmas about sending and receiving -/

theorem ssize_lt_size_of_short (n : Int) (size : Nat) (h0 : 0 ≤ n) (h1 : n < (size : Int))
    (hs : size < SIZE_MOD) : ssize_lt_size n size = true := by
  unfold ssize_lt_size
  have hlt : n < (SIZE_MOD : Int) := by omega
  rw [Int.emod_eq_of_lt h0 hlt]
  simp only [decide_eq_true_eq]
  omega

theorem host_value_last_byte (be : Bool) (c0 c1 c2 : Nat) (h : c2 ≠ c1) :
    host_value be [c0, c2] ≠ host_value be [c0, c1] := by
  unfold host_value
  cases be <;> simp [le_value] <;> omega

theorem receive_frame_rejects (be : Bool) (crc16 : List Nat → Nat) (num n : Int)
    (temp : List Nat) (frame : frame_t) (hnum : 1 ≤ num)
    (h : ssize_lt_size n FRAME_SIZE = true
      ∨ crc16 (temp.take (FRAME_SIZE - 2))
          ≠ host_value be ((temp.drop (FRAME_SIZE - 2)).take 2)) :
    receive_frame be crc16 num n temp frame = (-1, frame) := by
  unfold receive_frame
  rw [if_neg (by omega), if_pos h]

theorem receive_data_frame_rejects (be : Bool) (crc16 : List Nat → Nat) (M : Nat)
    (num n : Int) (temp : List Nat) (frame : data_frame_t) (hnum : 1 ≤ num)
    (h : ssize_lt_size n (DATA_FRAME_SIZE M) = true
      ∨ crc16 (temp.take (DATA_FRAME_SIZE M - 2))
          ≠ host_value be ((temp.drop (DATA_FRAME_SIZE M - 2)).take 2)) :
    receive_data_frame be crc16 M num n temp frame = (-1, frame) := by
  unfold receive_data_frame
  rw [if_neg (by omega), if_pos h]

theorem corrupted_tail (be : Bool) (crc16 : List Nat → Nat) (body : List Nat) (k c0 c1 c2 : Nat)
    (hb : body.length = k) (hv : crc16 body = host_value be [c0, c1]) (hc : c2 ≠ c1) :
    crc16 ((body ++ [c0, c2]).take k) ≠ host_value be (((body ++ [c0, c2]).drop k).take 2) := by
  have h1 : (body ++ [c0, c2]).take k = body := by
    rw [← hb]; simp
  have h2 : ((body ++ [c0, c2]).drop k).take 2 = [c0, c2] := by
    rw [← hb]; simp
  rw [h1, h2, hv]
  exact fun e => host_value_last_byte be c0 c1 c2 hc e.symm

/-- When the channel is ready and the read returns a byte count below the size of the
frame, or the checksum of the received bytes without the last two differs from the
received `check_sum`, `receive_frame` and `receive_data_frame` return -1 and the caller's
frame is as before; in particular so when the last byte of a buffer that would pass the
test is changed. -/
theorem receive_rejects_short_or_mismatch (be : Bool) (crc16 : List Nat → Nat) (M : Nat)
    (num n1 n2 : Int) (temp1 temp2 : List Nat) (frame : frame_t) (dframe : data_frame_t)
    (body1 body2 : List Nat) (c0 c1 c2 d0 d1 d2 : Nat)
    (hnum : 1 ≤ num) (hM : M < UINT16_MOD)
    (h1 : (0 ≤ n1 ∧ n1 < (FRAME_SIZE : Int))
      ∨ crc16 (temp1.take (FRAME_SIZE - 2))
          ≠ host_value be ((temp1.drop (FRAME_SIZE - 2)).take 2))
    (h2 : (0 ≤ n2 ∧ n2 < (DATA_FRAME_SIZE M : Int))
      ∨ crc16 (temp2.take (DATA_FRAME_SIZE M - 2))
          ≠ host_value be ((temp2.drop (DATA_FRAME_SIZE M - 2)).take 2))
    (hb1 : body1.length = FRAME_SIZE - 2) (hv1 : crc16 body1 = host_value be [c0, c1])
    (hc1 : c2 ≠ c1)
    (hb2 : body2.length = DATA_FRAME_SIZE M - 2) (hv2 : crc16 body2 = host_value be [d0, d1])
    (hc2 : d2 ≠ d1) :
    receive_frame be crc16 num n1 temp1 frame = (-1, frame)
      ∧ receive_data_frame be crc16 M num n2 temp2 dframe = (-1, dframe)
      ∧ receive_frame be crc16 num FRAME_SIZE (body1 ++ [c0, c2]) frame = (-1, frame)
      ∧ receive_data_frame be crc16 M num (DATA_FRAME_SIZE M) (body2 ++ [d0, d2]) dframe
          = (-1, dframe) := by
  have hs1 : FRAME_SIZE < SIZE_MOD := by decide
  have hs2 : DATA_FRAME_SIZE M < SIZE_MOD := by
    have : 22 + UINT16_MOD < SIZE_MOD := by decide
    unfold DATA_FRAME_SIZE
    omega
  refine ⟨?_, ?_, ?_, ?_⟩
  · refine receive_frame_rejects be crc16 num n1 temp1 frame hnum ?_
    rcases h1 with ⟨h0, hlt⟩ | hcrc
    · exact Or.inl (ssize_lt_size_of_short n1 FRAME_SIZE h0 hlt hs1)
    · exact Or.inr hcrc
  · refine receive_data_frame_rejects be crc16 M num n2 temp2 dframe hnum ?_
    rcases h2 with ⟨h0, hlt⟩ | hcrc
    · exact Or.inl (ssize_lt_size_of_short n2 (DATA_FRAME_SIZE M) h0 hlt hs2)
    · exact Or.inr hcrc
  · exact receive_frame_rejects be crc16 num _ _ frame hnum
      (Or.inr (corrupted_tail be crc16 body1 _ c0 c1 c2 hb1 hv1 hc1))
  · exact receive_data_frame_rejects be crc16 M num _ _ dframe hnum
      (Or.inr (corrupted_tail be crc16 body2 _ d0 d1 d2 hb2 hv2 hc2))

/-- On a little-endian host with a data capacity of 4 bytes: a read of 5 bytes, a data
frame whose checksum does not fit, and the images of two valid frames whose last byte is
changed, are all rejected. -/
theorem receive_rejects_short_or_mismatch_example :
    receive_frame false sum16 1 5 [58, 98, 4, 63, 11, 0, 0, 0, 0, 0, 0, 0, 0, 0] sample_frame
        = (-1, sample_frame)
      ∧ receive_data_frame false sum16 4 1 26
          [58, 98, 4, 63, 11, 0, 0, 0, 0, 0, 0, 0, 0, 1, 3, 0, 0, 0, 3, 0, 1, 2, 3, 0, 252, 0]
          stale_frame = (-1, stale_frame)
      ∧ receive_frame false sum16 1 FRAME_SIZE
          ([58, 98, 4, 63, 11, 0, 0, 0, 2, 0, 1, 2] ++ [239, 1]) sample_frame
          = (-1, sample_frame)
      ∧ receive_data_frame false sum16 4 1 (DATA_FRAME_SIZE 4)
          ([58, 98, 4, 63, 11, 0, 0, 0, 0, 0, 0, 0, 0, 1, 3, 0, 0, 0, 3, 0, 1, 2, 3, 0]
            ++ [247, 7]) stale_frame = (-1, stale_frame) :=
  receive_rejects_short_or_mismatch false sum16 4 1 5 26
    [58, 98, 4, 63, 11, 0, 0, 0, 0, 0, 0, 0, 0, 0]
    [58, 98, 4, 63, 11, 0, 0, 0, 0, 0, 0, 0, 0, 1, 3, 0, 0, 0, 3, 0, 1, 2, 3, 0, 252, 0]
    sample_frame stale_frame
    [58, 98, 4, 63, 11, 0, 0, 0, 2, 0, 1, 2]
    [58, 98, 4, 63, 11, 0, 0, 0, 0, 0, 0, 0, 0, 1, 3, 0, 0, 0, 3, 0, 1, 2, 3, 0]
    239 0 1 247 0 7
    (by decide) (by decide) (Or.inl (by decide)) (Or.inr (by decide)) (by decide) (by decide)
    (by decide) (by decide) (by decide) (by decide)

theorem le_bytes_length (n v : Nat) : (le_bytes n v).length = n := by
  induction n generalizing v with
  | zero => rfl
  | succ n ih => rw [le_bytes, List.length_cons, ih]

theorem host_bytes_length (be : Bool) (n v : Nat) : (host_bytes be n v).length = n := by
  unfold host_bytes
  cases be
  · simp [le_bytes_length]
  · simp [le_bytes_length]

theorem frame_bytes_length (be : Bool) (f : frame_t) (h : f.header.length = 4) :
    (frame_bytes be f).length = FRAME_SIZE := by
  unfold frame_bytes frame_body FRAME_SIZE
  simp only [List.length_append, host_bytes_length, h]

theorem data_frame_bytes_length (be : Bool) (M : Nat) (f : data_frame_t)
    (h : f.header.length = 4) (hd : f.data.length = M) :
    (data_frame_bytes be f).length = DATA_FRAME_SIZE M := by
  unfold data_frame_bytes data_frame_body DATA_FRAME_SIZE
  simp only [List.length_append, host_bytes_length, h, hd, List.length_singleton]
  omega

theorem send_frame_ready (be : Bool) (crc16 : List Nat → Nat) (num wr : Int) (frame : frame_t)
    (hnum : 1 ≤ num) :
    send_frame be crc16 num wr frame
      = (wr, send_frame_convert be { frame with check_sum := crc16 (frame_body be frame) },
          some (frame_bytes be
            (send_frame_convert be { frame with check_sum := crc16 (frame_body be frame) }))) := by
  unfold send_frame
  simp only
  rw [if_neg (by omega)]

theorem send_frame_not_ready (be : Bool) (crc16 : List Nat → Nat) (num wr : Int)
    (frame : frame_t) (hnum : num < 1) :
    send_frame be crc16 num wr frame
      = (-1, { frame with check_sum := crc16 (frame_body be frame) }, none) := by
  unfold send_frame
  simp only
  rw [if_pos hnum]

theorem send_data_frame_ready (be : Bool) (crc16 : List Nat → Nat) (num wr : Int)
    (frame : data_frame_t) (hnum : 1 ≤ num) :
    send_data_frame be crc16 num wr frame
      = (wr,
          send_data_frame_convert be
            { frame with check_sum := crc16 (data_frame_body be frame) },
          some (data_frame_bytes be
            (send_data_frame_convert be
              { frame with check_sum := crc16 (data_frame_body be frame) }))) := by
  unfold send_data_frame
  simp only
  rw [if_neg (by omega)]

theorem send_data_frame_not_ready (be : Bool) (crc16 : List Nat → Nat) (num wr : Int)
    (frame : data_frame_t) (hnum : num < 1) :
    send_data_frame be crc16 num wr frame
      = (-1, { frame with check_sum := crc16 (data_frame_body be frame) }, none) := by
  unfold send_data_frame
  simp only
  rw [if_pos hnum]

theorem ssize_lt_size_minus_one (size : Nat) (hs : size < SIZE_MOD) :
    ssize_lt_size (-1) size = false := by
  unfold ssize_lt_size
  have h : ((-1 : Int) % (SIZE_MOD : Int)).toNat = SIZE_MOD - 1 := by decide
  rw [h]
  simp only [decide_eq_false_iff_not]
  omega

/-- The error return -1 of `read` passes the size test: when the scratch buffer passes the
checksum test, both receive functions return -1 and copy the buffer into the caller's
frame. -/
theorem receive_read_error_copies (be : Bool) (crc16 : List Nat → Nat) (M : Nat) (num : Int)
    (temp1 temp2 : List Nat) (frame : frame_t) (dframe : data_frame_t)
    (hnum : 1 ≤ num) (hM : M < UINT16_MOD)
    (h1 : crc16 (temp1.take (FRAME_SIZE - 2))
      = host_value be ((temp1.drop (FRAME_SIZE - 2)).take 2))
    (h2 : crc16 (temp2.take (DATA_FRAME_SIZE M - 2))
      = host_value be ((temp2.drop (DATA_FRAME_SIZE M - 2)).take 2)) :
    receive_frame be crc16 num (-1) temp1 frame
        = (-1, receive_frame_convert be (frame_of_bytes be temp1))
      ∧ receive_data_frame be crc16 M num (-1) temp2 dframe
        = (-1, receive_data_frame_convert be (data_frame_of_bytes be M temp2)) := by
  have hs2 : DATA_FRAME_SIZE M < SIZE_MOD := by
    have : 22 + UINT16_MOD < SIZE_MOD := by decide
    unfold DATA_FRAME_SIZE
    omega
  constructor
  · unfold receive_frame
    rw [if_neg (by omega), if_neg]
    rw [ssize_lt_size_minus_one FRAME_SIZE (by decide)]
    simp [h1]
  · unfold receive_data_frame
    rw [if_neg (by omega), if_neg]
    rw [ssize_lt_size_minus_one (DATA_FRAME_SIZE M) hs2]
    simp [h2]

/-! ## Lemmas about what the chunker leaves alone and when it is left -/

theorem same_stamps_refl (f : data_frame_t) : same_stamps f f :=
  ⟨rfl, rfl, rfl, rfl, rfl, rfl⟩

theorem same_stamps_trans (f g h : data_frame_t) (h1 : same_stamps f g) (h2 : same_stamps g h) :
    same_stamps f h :=
  ⟨h2.1.trans h1.1, h2.2.1.trans h1.2.1, h2.2.2.1.trans h1.2.2.1,
    h2.2.2.2.1.trans h1.2.2.2.1, h2.2.2.2.2.1.trans h1.2.2.2.2.1,
    h2.2.2.2.2.2.trans h1.2.2.2.2.2⟩

theorem update_at_keeps (frames : List data_frame_t) (i : Nat) (g : data_frame_t → data_frame_t)
    (hg : ∀ f, same_stamps f (g f)) (j : Nat) (f : data_frame_t) (h : frames[j]? = some f) :
    ∃ f', (update_at frames i g)[j]? = some f' ∧ same_stamps f f' := by
  rw [getElem?_update_at]
  by_cases hji : j = i
  · rw [if_pos hji, h]
    exact ⟨g f, rfl, hg f⟩
  · rw [if_neg hji, h]
    exact ⟨f, rfl, same_stamps_refl f⟩

theorem mem_loop_keeps (M : Nat) (crc16 : List Nat → Nat) (addr : List Nat) (bound : Nat) :
    ∀ (fuel i p : Nat) (frames : List data_frame_t) (r : Nat × Nat × List data_frame_t),
      mem_loop M crc16 addr bound fuel i p frames = some r →
      r.2.2.length = frames.length
        ∧ ∀ (j : Nat) (f : data_frame_t), frames[j]? = some f →
            ∃ g, r.2.2[j]? = some g ∧ same_stamps f g := by
  intro fuel
  induction fuel with
  | zero => intro i p frames r h; simp [mem_loop] at h
  | succ fuel ih =>
    intro i p frames r h
    rw [mem_loop] at h
    by_cases hi : i < bound
    · rw [if_pos hi] at h
      obtain ⟨hlen, hk⟩ := ih _ _ _ r h
      refine ⟨by rw [hlen, length_update_at], ?_⟩
      intro j f hf
      obtain ⟨f', hf', hs⟩ :=
        update_at_keeps frames i (fill_full M crc16 (addr.drop p))
          (fun f => fill_full_stamps M crc16 _ f) j f hf
      obtain ⟨g, hg, hs'⟩ := hk j f' hf'
      exact ⟨g, hg, same_stamps_trans f f' g hs hs'⟩
    · rw [if_neg hi] at h
      cases h
      exact ⟨rfl, fun j f hf => ⟨f, hf, same_stamps_refl f⟩⟩

theorem data_to_data_frames_keeps (M : Nat) (crc16 : List Nat → Nat)
    (reads : List (Option (List Nat))) (addr : List Nat) (L : Nat) (frames : List data_frame_t)
    (fuel : Nat) (fr : List data_frame_t)
    (h : data_to_data_frames M crc16 reads (some addr) L frames fuel = some fr) :
    fr.length = frames.length
      ∧ ∀ (j : Nat) (f : data_frame_t), frames[j]? = some f →
          ∃ g, fr[j]? = some g ∧ same_stamps f g := by
  unfold data_to_data_frames at h
  simp only at h
  cases hrun : mem_loop M crc16 addr (size_sub ((size_sub L 1 / M + 1) % SIZE_MOD) 1) fuel 0 0
      frames with
  | none => rw [hrun] at h; cases h
  | some r =>
    rw [hrun] at h
    obtain ⟨i, p, fs⟩ := r
    simp only [Option.some.injEq] at h
    obtain ⟨hlen, hk⟩ := mem_loop_keeps M crc16 addr _ fuel 0 0 frames (i, p, fs) hrun
    subst h
    refine ⟨by rw [length_update_at]; exact hlen, ?_⟩
    intro j f hf
    obtain ⟨f', hf', hs⟩ := hk j f hf
    obtain ⟨g, hg, hs'⟩ :=
      update_at_keeps fs i (fill_last M crc16 L i (addr.drop p))
        (fun f => fill_last_stamps M crc16 L i _ f) j f' hf'
    exact ⟨g, hg, same_stamps_trans f f' g hs hs'⟩

theorem data_to_data_frames_diverges_of_bound (M : Nat) (crc16 : List Nat → Nat)
    (reads : List (Option (List Nat))) (addr : List Nat) (L : Nat) (frames : List data_frame_t)
    (hb : N_FRAME_MOD ≤ size_sub ((size_sub L 1 / M + 1) % SIZE_MOD) 1) (fuel : Nat) :
    data_to_data_frames M crc16 reads (some addr) L frames fuel = none := by
  unfold data_to_data_frames
  simp only
  rw [mem_loop_diverges M crc16 addr _ hb fuel 0 0 frames (by decide)]

/-! ## Lemmas on the path with a file descriptor against the in-memory path -/

theorem fd_full_eq_fill_full (M : Nat) (crc16 : List Nat → Nat) (src : List Nat)
    (h : M ≤ src.length) : fd_full M crc16 (src.take M) = fill_full M crc16 src := by
  funext f
  have hl : (src.take M).length = M := by simp; omega
  unfold fd_full fill_full memcpy
  rw [hl, List.take_take, Nat.min_self]

theorem fd_last_eq_fill_last (M : Nat) (crc16 : List Nat → Nat) (L i : Nat) (rest : List Nat)
    (h : size_sub L (i * M) % UINT16_MOD = rest.length) (h16 : rest.length < UINT16_MOD) :
    fd_last M crc16 rest = fill_last M crc16 L i rest := by
  funext f
  unfold fd_last fill_last
  simp only [h, Nat.mod_eq_of_lt h16]

theorem fd_loop_follows_mem_loop (M : Nat) (crc16 : List Nat → Nat) (addr : List Nat)
    (bound : Nat) (hb : bound < N_FRAME_MOD) :
    ∀ (k i p : Nat) (frames : List data_frame_t) (fuel src_fuel : Nat),
      i + k = bound → k < fuel → k ≤ src_fuel → p + k * M ≤ addr.length →
      ∃ fs, mem_loop M crc16 addr bound fuel i p frames = some (bound, p + k * M, fs)
        ∧ fd_loop M crc16 (source_reads M src_fuel (addr.drop p)) i frames
          = fd_loop M crc16 (source_reads M (src_fuel - k) (addr.drop (p + k * M))) bound
              fs := by
  intro k
  induction k with
  | zero =>
    intro i p frames fuel src_fuel hik hf _ _
    obtain ⟨fuel, rfl⟩ : ∃ f, fuel = f + 1 := ⟨fuel - 1, by omega⟩
    have hi : i = bound := by omega
    subst hi
    refine ⟨frames, ?_, ?_⟩
    · simp [mem_loop]
    · simp
  | succ k ih =>
    intro i p frames fuel src_fuel hik hf hs hp
    obtain ⟨fuel, rfl⟩ : ∃ f, fuel = f + 1 := ⟨fuel - 1, by omega⟩
    obtain ⟨s, rfl⟩ : ∃ s, src_fuel = s + 1 := ⟨src_fuel - 1, by omega⟩
    have hi : i < bound := by omega
    have hmod : (i + 1) % N_FRAME_MOD = i + 1 := Nat.mod_eq_of_lt (by omega)
    have hkM : (k + 1) * M = k * M + M := Nat.succ_mul k M
    have hsrc : M ≤ (addr.drop p).length := by simp; omega
    obtain ⟨fs, hrun, hfd⟩ :=
      ih (i + 1) (p + M) (update_at frames i (fill_full M crc16 (addr.drop p))) fuel s
        (by omega) (by omega) (by omega) (by omega)
    have hpk : p + M + k * M = p + (k + 1) * M := by omega
    refine ⟨fs, ?_, ?_⟩
    · rw [mem_loop, if_pos hi, hmod, hrun, hpk]
    · have hstep : source_reads M (s + 1) (addr.drop p)
          = some ((addr.drop p).take M) :: source_reads M s (addr.drop (p + M)) := by
        rw [source_reads, if_neg (by omega), List.drop_drop]
      have hl : ((addr.drop p).take M).length = M := by simp; omega
      rw [hstep, fd_loop, if_pos hl, hmod, fd_full_eq_fill_full M crc16 _ hsrc, hfd, hpk]
      congr 2
      omega

theorem mem_path_unfold (M : Nat) (crc16 : List Nat → Nat) (reads : List (Option (List Nat)))
    (addr : List Nat) (L : Nat) (frames : List data_frame_t) (fuel : Nat)
    (hL : 0 < L) (hLs : L < SIZE_MOD) :
    data_to_data_frames M crc16 reads (some addr) L frames fuel
      = match mem_loop M crc16 addr ((L - 1) / M) fuel 0 0 frames with
        | none => none
        | some (i, p, fs) => some (update_at fs i (fill_last M crc16 L i (addr.drop p))) := by
  have h1 : size_sub L 1 = L - 1 := size_sub_of_le L 1 hL hLs
  have hn : (L - 1) / M + 1 < SIZE_MOD := by
    have := Nat.div_le_self (L - 1) M
    omega
  have h2 : size_sub ((L - 1) / M + 1) 1 = (L - 1) / M := by
    rw [size_sub_of_le _ 1 (Nat.succ_pos _) hn]; rfl
  unfold data_to_data_frames
  simp only [h1, Nat.mod_eq_of_lt hn, h2]

theorem fill_full_eq_fill_last (M : Nat) (crc16 : List Nat → Nat) (L i : Nat) (src : List Nat)
    (h : size_sub L (i * M) % UINT16_MOD = M) (h16 : M < UINT16_MOD) :
    fill_full M crc16 src = fill_last M crc16 L i src := by
  funext f
  unfold fill_full fill_last
  simp only [h, Nat.mod_eq_of_lt h16, Nat.sub_self]
  have : memset_zero (memcpy f.data src M) M 0 = memcpy f.data src M := by
    unfold memset_zero
    simp
  rw [this]

/-- When `M` does not divide the length of the source, the path with a file descriptor
leaves the very frames the in-memory path leaves for the same bytes. -/
theorem fd_path_agrees (M : Nat) (crc16 : List Nat → Nat) (reads : List (Option (List Nat)))
    (addr : List Nat) (L fd : Nat) (frames : List data_frame_t) (fuel fuel0 src_fuel : Nat)
    (hM : 0 < M) (hM16 : M < UINT16_MOD) (hL : 0 < L) (hlen : addr.length = L)
    (hnd : L % M ≠ 0) (hb : (L - 1) / M < N_FRAME_MOD) (hfuel : (L - 1) / M < fuel)
    (hsrc : (L - 1) / M < src_fuel) :
    data_to_data_frames M crc16 (source_reads M src_fuel addr) none fd frames fuel0
      = data_to_data_frames M crc16 reads (some addr) L frames fuel := by
  have hLs : L < SIZE_MOD :=
    Nat.lt_of_lt_of_le (payload_lt_size L M hM hM16 hb) (by decide)
  have hbL := div_mul_le_pred L M hL
  have hr := last_len_eq L M hM hL
  rw [if_neg hnd] at hr
  have hrM : L - (L - 1) / M * M < M := by rw [hr]; exact Nat.mod_lt L hM
  obtain ⟨fs, hrun, hfd⟩ :=
    fd_loop_follows_mem_loop M crc16 addr ((L - 1) / M) hb ((L - 1) / M) 0 0 frames fuel
      src_fuel (by omega) hfuel (by omega) (by omega)
  rw [mem_path_unfold M crc16 reads addr L frames fuel hL hLs, hrun]
  simp only [Nat.zero_add, List.drop_zero] at hfd ⊢
  obtain ⟨s, hs⟩ : ∃ s, src_fuel - (L - 1) / M = s + 1 :=
    ⟨src_fuel - (L - 1) / M - 1, by omega⟩
  have hrl : (addr.drop ((L - 1) / M * M)).length = L - (L - 1) / M * M := by simp; omega
  have hdl := fill_last_data_len M crc16 L (addr.drop ((L - 1) / M * M)) stale_frame hM hM16
    hL hLs
  unfold data_to_data_frames
  simp only
  rw [hfd, hs, source_reads, if_pos (by omega), fd_loop, if_neg (by omega),
    fd_last_eq_fill_last M crc16 L ((L - 1) / M) _ (by rw [hrl]; exact hdl) (by omega)]

/-- When `M` divides the length of the source, the path with a file descriptor leaves the
frames of the in-memory path and one more frame, filled from the read of 0 bytes. -/
theorem fd_path_extra_frame (M : Nat) (crc16 : List Nat → Nat)
    (reads : List (Option (List Nat))) (addr : List Nat) (L fd : Nat)
    (frames : List data_frame_t) (fuel fuel0 src_fuel : Nat)
    (hM : 0 < M) (hM16 : M < UINT16_MOD) (hL : 0 < L) (hlen : addr.length = L)
    (hdiv : L % M = 0) (hb : (L - 1) / M + 1 < N_FRAME_MOD) (hfuel : (L - 1) / M < fuel)
    (hsrc : (L - 1) / M + 1 < src_fuel) :
    ∃ fr, data_to_data_frames M crc16 reads (some addr) L frames fuel = some fr
      ∧ data_to_data_frames M crc16 (source_reads M src_fuel addr) none fd frames fuel0
          = some (update_at fr ((L - 1) / M + 1) (fd_last M crc16 [])) := by
  have hb' : (L - 1) / M < N_FRAME_MOD := by omega
  have hLs : L < SIZE_MOD :=
    Nat.lt_of_lt_of_le (payload_lt_size L M hM hM16 hb') (by decide)
  have hbL := div_mul_le_pred L M hL
  have hr := last_len_eq L M hM hL
  rw [if_pos hdiv] at hr
  obtain ⟨fs, hrun, hfd⟩ :=
    fd_loop_follows_mem_loop M crc16 addr ((L - 1) / M) hb' ((L - 1) / M) 0 0 frames fuel
      src_fuel (by omega) hfuel (by omega) (by omega)
  rw [mem_path_unfold M crc16 reads addr L frames fuel hL hLs, hrun]
  simp only [Nat.zero_add, List.drop_zero] at hfd ⊢
  refine ⟨_, rfl, ?_⟩
  obtain ⟨s, hs⟩ : ∃ s, src_fuel - (L - 1) / M = s + 2 :=
    ⟨src_fuel - (L - 1) / M - 2, by omega⟩
  have hrl : (addr.drop ((L - 1) / M * M)).length = M := by simp; omega
  have hdl := fill_last_data_len M crc16 L (addr.drop ((L - 1) / M * M)) stale_frame hM hM16
    hL hLs
  have hmod : ((L - 1) / M + 1) % N_FRAME_MOD = (L - 1) / M + 1 := Nat.mod_eq_of_lt hb
  have hnil : (addr.drop ((L - 1) / M * M)).drop M = [] := by
    apply List.drop_of_length_le; omega
  have htake : ((addr.drop ((L - 1) / M * M)).take M).length = M := by simp; omega
  unfold data_to_data_frames
  simp only
  rw [hfd, hs, source_reads, if_neg (by omega), fd_loop, if_pos htake, hmod, hnil,
    source_reads, if_pos (by simpa using hM), fd_loop,
    if_neg (by simpa using (Nat.ne_of_gt hM).symm),
    fd_full_eq_fill_full M crc16 _ (by omega),
    fill_full_eq_fill_last M crc16 L ((L - 1) / M) _ (hdl.trans hr) hM16]

/-- On a little-endian host the sample data frame, sent and delivered intact, is rejected
by every checksum that tells the image with `n_total_frame = 0` from the image with
`n_total_frame = 5`. -/
theorem sample_data_frame_rejected (crc16 : List Nat → Nat)
    (h16 : crc16 [58, 98, 4, 63, 11, 0, 0, 0, 0, 0, 5, 0, 0, 1, 3, 0, 0, 0, 3, 0, 1, 2, 3, 0]
      < 65536)
    (hne : crc16 [58, 98, 4, 63, 11, 0, 0, 0, 0, 0, 0, 0, 0, 1, 3, 0, 0, 0, 3, 0, 1, 2, 3, 0]
      ≠ crc16 [58, 98, 4, 63, 11, 0, 0, 0, 0, 0, 5, 0, 0, 1, 3, 0, 0, 0, 3, 0, 1, 2, 3, 0]) :
    ∃ w, (send_data_frame false crc16 1 26 sample_data_frame).2.2 = some w
      ∧ receive_data_frame false crc16 4 1 26 w stale_frame = (-1, stale_frame) := by
  refine ⟨_, rfl, ?_⟩
  refine receive_data_frame_rejects false crc16 4 1 26 _ stale_frame (by decide) (Or.inr ?_)
  simp only [DATA_FRAME_SIZE, data_frame_bytes, data_frame_body, send_data_frame_convert,
    host_bytes, host_value, le_bytes, le_value, htole32, htole16, UINT24_MOD, sample_data_frame,
    tp_header, Bool.false_eq_true, if_false, List.cons_append, List.nil_append,
    List.append_assoc, Nat.reduceAdd, Nat.reduceSub, Nat.reduceMod, Nat.reduceDiv,
    Nat.reducePow, List.take_succ_cons, List.take_zero, List.drop_succ_cons, List.drop_zero]
  omega

/-! ## Claims -/

/-- C1. Round trip of chunking: for an in-memory payload `addr` of length `L > 0` whose
frame count `ceil(L / M)` lies in the range of `n_frame_t`, `data_to_data_frames` returns,
and `data_frames_to_data` on the frames it filled, with that frame count, puts exactly
the `L` payload bytes, in order, at the start of the output buffer and leaves the rest
of the buffer alone. -/
theorem C1_chunk_then_reassemble (M : Nat) (crc16 : List Nat → Nat)
    (reads : List (Option (List Nat))) (addr : List Nat) (L : Nat) (frames : List data_frame_t)
    (out : List Nat) (fuel : Nat)
    (hM : 0 < M) (hM16 : M < UINT16_MOD) (hL : 0 < L) (hlen : addr.length = L)
    (hn : (L + M - 1) / M < N_FRAME_MOD) (hfr : (L + M - 1) / M ≤ frames.length)
    (hfuel : (L + M - 1) / M ≤ fuel) :
    ∃ fr, data_to_data_frames M crc16 reads (some addr) L frames fuel = some fr
      ∧ (data_frames_to_data fr ((L + M - 1) / M) out).take L = addr
      ∧ (data_frames_to_data fr ((L + M - 1) / M) out).drop L = out.drop L := by
  rw [ceil_div_eq L M hM hL] at hn hfr hfuel ⊢
  have hb : (L - 1) / M < N_FRAME_MOD := by omega
  have hLs : L < SIZE_MOD :=
    Nat.lt_of_lt_of_le (payload_lt_size L M hM hM16 hb) (by decide)
  obtain ⟨fr, hrun, -, -, hfull, f, -, hlast⟩ :=
    chunk_result M crc16 reads addr L frames hM hM16 hL hb (by omega) fuel (by omega)
  have hbL := div_mul_le_pred L M hL
  have hloop := reassemble_full M addr out fr ((L - 1) / M) (by omega)
    (by
      intro j hj
      obtain ⟨f, -, hg⟩ := hfull j hj
      exact ⟨_, hg, fill_full_data_len M crc16 _ f hM16,
        fill_full_take M crc16 addr (j * M) f
          (by rw [hlen]; exact full_chunk_fits L M j hL hj)⟩)
    ((L - 1) / M) (Nat.le_refl _)
  have hres : data_frames_to_data fr ((L - 1) / M + 1) out = addr ++ out.drop L := by
    unfold data_frames_to_data
    rw [data_frames_to_data_loop_succ fr _ out _ hlast, hloop]
    simp only
    rw [fill_last_data_len M crc16 L _ f hM hM16 hL hLs,
      memcpy_at_step addr out _ _ _ (by omega)
        (fill_last_take M crc16 addr L f hM hM16 hL hLs hlen)]
    have : (L - 1) / M * M + (L - (L - 1) / M * M) = L := by omega
    rw [this, List.take_of_length_le (by omega)]
  refine ⟨fr, hrun, ?_, ?_⟩
  · rw [hres, List.take_append_of_le_length (by omega), List.take_of_length_le (by omega)]
  · rw [hres, List.drop_append_eq_append_drop, List.drop_of_length_le (by omega), hlen]
    simp

/-- Instance of C1: a payload of 5 bytes with frames of 4 data bytes, chunked into two
stale frames and reassembled into a 7-byte buffer. -/
theorem C1_chunk_then_reassemble_witness :
    ∃ fr, data_to_data_frames 4 sum16 [] (some [1, 2, 3, 4, 5]) 5
        [stale_frame, stale_frame, stale_frame] 2 = some fr
      ∧ (data_frames_to_data fr ((5 + 4 - 1) / 4) [0, 0, 0, 0, 0, 0, 0]).take 5 = [1, 2, 3, 4, 5]
      ∧ (data_frames_to_data fr ((5 + 4 - 1) / 4) [0, 0, 0, 0, 0, 0, 0]).drop 5
          = List.drop 5 [0, 0, 0, 0, 0, 0, 0] :=
  C1_chunk_then_reassemble 4 sum16 [] [1, 2, 3, 4, 5] 5 [stale_frame, stale_frame, stale_frame]
    [0, 0, 0, 0, 0, 0, 0] 2 (by decide) (by decide) (by decide) (by decide) (by decide)
    (by decide) (by decide)

/-- C2, as amended. Frame count: for an in-memory payload of length `L > 0` whose frame
count `ceil(L / M)` is at most 2^16, `data_to_data_frames` returns and has filled
exactly the frames `0 .. ceil(L / M) - 1`: each of them holds its chunk of the payload,
a positive `data_len` and the checksum of its image, and every frame from index
`ceil(L / M)` on is as it was. -/
theorem C2_frame_count (M : Nat) (crc16 : List Nat → Nat)
    (reads : List (Option (List Nat))) (addr : List Nat) (L : Nat) (frames : List data_frame_t)
    (fuel : Nat)
    (hM : 0 < M) (hM16 : M < UINT16_MOD) (hL : 0 < L) (hlen : addr.length = L)
    (hn : (L + M - 1) / M ≤ N_FRAME_MOD) (hfr : (L + M - 1) / M ≤ frames.length)
    (hfuel : (L + M - 1) / M ≤ fuel) :
    ∃ fr, data_to_data_frames M crc16 reads (some addr) L frames fuel = some fr
      ∧ fr.length = frames.length
      ∧ (∀ j, j < (L + M - 1) / M → ∃ g, fr[j]? = some g ∧ 0 < g.data_len
          ∧ g.data.take g.data_len = (addr.drop (j * M)).take M
          ∧ g.check_sum = crc16 (frame_image g))
      ∧ (∀ j, (L + M - 1) / M ≤ j → fr[j]? = frames[j]?) := by
  rw [ceil_div_eq L M hM hL] at hn hfr hfuel ⊢
  have hb : (L - 1) / M < N_FRAME_MOD := by omega
  have hLs : L < SIZE_MOD :=
    Nat.lt_of_lt_of_le (payload_lt_size L M hM hM16 hb) (by decide)
  obtain ⟨fr, hrun, hlength, hout, hfull, f, -, hlast⟩ :=
    chunk_result M crc16 reads addr L frames hM hM16 hL hb (by omega) fuel (by omega)
  refine ⟨fr, hrun, hlength, ?_, fun j hj => hout j (by omega)⟩
  intro j hj
  rcases Nat.lt_or_ge j ((L - 1) / M) with hlt | hge
  · obtain ⟨f', -, hg⟩ := hfull j hlt
    refine ⟨_, hg, ?_, ?_, fill_full_check_sum M crc16 _ f'⟩
    · rw [fill_full_data_len M crc16 _ f' hM16]; exact hM
    · rw [fill_full_data_len M crc16 _ f' hM16]
      exact fill_full_take M crc16 addr (j * M) f'
        (by rw [hlen]; exact full_chunk_fits L M j hL hlt)
  · have hj' : j = (L - 1) / M := by omega
    subst hj'
    refine ⟨_, hlast, ?_, ?_, fill_last_check_sum M crc16 _ _ _ f⟩
    · rw [fill_last_data_len M crc16 L _ f hM hM16 hL hLs]
      exact (last_len_bounds L M hM hL).1
    · rw [fill_last_data_len M crc16 L _ f hM hM16 hL hLs,
        fill_last_take M crc16 addr L f hM hM16 hL hLs hlen]
      exact last_chunk_take addr L M hM hL hlen

/-- Instances of C2 with a data capacity of 256 bytes: a payload of 1 byte fills one
frame, a payload of 512 bytes fills two. -/
theorem C2_frame_count_witness :
    (∃ fr, data_to_data_frames 256 sum16 [] (some [7]) 1
        [stale_frame_256, stale_frame_256, stale_frame_256] 1 = some fr
      ∧ fr.length = [stale_frame_256, stale_frame_256, stale_frame_256].length
      ∧ (∀ j, j < 1 → ∃ g, fr[j]? = some g ∧ 0 < g.data_len
          ∧ g.data.take g.data_len = (List.drop (j * 256) [7]).take 256
          ∧ g.check_sum = sum16 (frame_image g))
      ∧ (∀ j, 1 ≤ j → fr[j]? = [stale_frame_256, stale_frame_256, stale_frame_256][j]?))
    ∧ (∃ fr, data_to_data_frames 256 sum16 [] (some (List.replicate 512 7)) 512
        [stale_frame_256, stale_frame_256, stale_frame_256] 2 = some fr
      ∧ fr.length = [stale_frame_256, stale_frame_256, stale_frame_256].length
      ∧ (∀ j, j < 2 → ∃ g, fr[j]? = some g ∧ 0 < g.data_len
          ∧ g.data.take g.data_len = (List.drop (j * 256) (List.replicate 512 7)).take 256
          ∧ g.check_sum = sum16 (frame_image g))
      ∧ (∀ j, 2 ≤ j → fr[j]? = [stale_frame_256, stale_frame_256, stale_frame_256][j]?)) :=
  ⟨C2_frame_count 256 sum16 [] [7] 1 [stale_frame_256, stale_frame_256, stale_frame_256] 1
      (by decide) (by decide) (by decide) (by decide) (by decide) (by decide) (by decide),
    C2_frame_count 256 sum16 [] (List.replicate 512 7) 512
      [stale_frame_256, stale_frame_256, stale_frame_256] 2
      (by decide) (by decide) (by decide) (List.length_replicate _ _) (by decide) (by decide)
      (by decide)⟩

/-- C2 as stated fails: a payload of 65537 * 256 bytes with a data capacity of 256 bytes
needs 65537 frames, the loop bound 65536 is never reached by the 16-bit counter, and
`data_to_data_frames` returns for no amount of fuel. -/
theorem C2_frame_count_counterexample :
    0 < 16777472
      ∧ (List.replicate 16777472 0).length = 16777472
      ∧ (16777472 + 256 - 1) / 256 ≤ (List.replicate 65537 stale_frame_256).length
      ∧ ∀ fuel, data_to_data_frames 256 sum16 [] (some (List.replicate 16777472 0)) 16777472
          (List.replicate 65537 stale_frame_256) fuel = none :=
  ⟨by decide, List.length_replicate _ _, by rw [List.length_replicate],
    fun fuel => data_to_data_frames_diverges 256 sum16 [] _ 16777472 _ (by decide) (by decide)
      (by decide) fuel⟩

/-- C3, as amended. Chunk sizes: for an in-memory payload of length `L > 0` whose frame
count `n = ceil(L / M)` is at most 2^16, `data_to_data_frames` returns, every frame
`i < n - 1` has `data_len = M`, and the last frame has `data_len = L mod M` when that
remainder is non-zero and `data_len = M` when `M` divides `L`. -/
theorem C3_chunk_sizes (M : Nat) (crc16 : List Nat → Nat)
    (reads : List (Option (List Nat))) (addr : List Nat) (L : Nat) (frames : List data_frame_t)
    (fuel : Nat)
    (hM : 0 < M) (hM16 : M < UINT16_MOD) (hL : 0 < L)
    (hn : (L + M - 1) / M ≤ N_FRAME_MOD) (hfr : (L + M - 1) / M ≤ frames.length)
    (hfuel : (L + M - 1) / M ≤ fuel) :
    ∃ fr, data_to_data_frames M crc16 reads (some addr) L frames fuel = some fr
      ∧ (∀ i, i < (L + M - 1) / M - 1 → ∃ g, fr[i]? = some g ∧ g.data_len = M)
      ∧ ∃ g, fr[(L + M - 1) / M - 1]? = some g
          ∧ g.data_len = if L % M = 0 then M else L % M := by
  rw [ceil_div_eq L M hM hL] at hn hfr hfuel ⊢
  have hb : (L - 1) / M < N_FRAME_MOD := by omega
  have hLs : L < SIZE_MOD :=
    Nat.lt_of_lt_of_le (payload_lt_size L M hM hM16 hb) (by decide)
  obtain ⟨fr, hrun, -, -, hfull, f, -, hlast⟩ :=
    chunk_result M crc16 reads addr L frames hM hM16 hL hb (by omega) fuel (by omega)
  rw [Nat.add_sub_cancel]
  refine ⟨fr, hrun, ?_, _, hlast, ?_⟩
  · intro i hi
    obtain ⟨f', -, hg⟩ := hfull i hi
    exact ⟨_, hg, fill_full_data_len M crc16 _ f' hM16⟩
  · rw [fill_last_data_len M crc16 L _ f hM hM16 hL hLs]
    exact last_len_eq L M hM hL

/-- Instances of C3 with a data capacity of 256 bytes: 512 bytes give two frames with
`data_len = 256`, and 257 bytes give a last frame with `data_len = 1`. -/
theorem C3_chunk_sizes_witness :
    (∃ fr, data_to_data_frames 256 sum16 [] (some (List.replicate 512 7)) 512
        [stale_frame_256, stale_frame_256] 2 = some fr
      ∧ (∀ i, i < 1 → ∃ g, fr[i]? = some g ∧ g.data_len = 256)
      ∧ ∃ g, fr[1]? = some g ∧ g.data_len = 256)
    ∧ (∃ fr, data_to_data_frames 256 sum16 [] (some (List.replicate 257 7)) 257
        [stale_frame_256, stale_frame_256] 2 = some fr
      ∧ (∀ i, i < 1 → ∃ g, fr[i]? = some g ∧ g.data_len = 256)
      ∧ ∃ g, fr[1]? = some g ∧ g.data_len = 1) :=
  ⟨C3_chunk_sizes 256 sum16 [] (List.replicate 512 7) 512 [stale_frame_256, stale_frame_256] 2
      (by decide) (by decide) (by decide) (by decide) (by decide) (by decide),
    C3_chunk_sizes 256 sum16 [] (List.replicate 257 7) 257 [stale_frame_256, stale_frame_256] 2
      (by decide) (by decide) (by decide) (by decide) (by decide) (by decide)⟩

/-- C3 as stated fails: with a data capacity of 256 bytes a payload of 65537 * 256 + 1
bytes would be chunked into 65538 frames, but the loop bound 65537 is out of reach of
the 16-bit counter and no frame array is ever returned, so the last frame never gets
its `data_len`. -/
theorem C3_chunk_sizes_counterexample :
    0 < 16777473
      ∧ (List.replicate 16777473 0).length = 16777473
      ∧ (16777473 + 256 - 1) / 256 ≤ (List.replicate 65538 stale_frame_256).length
      ∧ ¬ ∃ fuel fr, data_to_data_frames 256 sum16 [] (some (List.replicate 16777473 0))
          16777473 (List.replicate 65538 stale_frame_256) fuel = some fr :=
  ⟨by decide, List.length_replicate _ _, by rw [List.length_replicate],
    fun ⟨fuel, fr, h⟩ => by
      rw [data_to_data_frames_diverges 256 sum16 [] _ 16777473 _ (by decide) (by decide)
        (by decide) fuel] at h
      cases h⟩

/-- C4, as amended. Zero padding: for an in-memory payload of length `L > 0` whose frame
count `ceil(L / M)` is at most 2^16, `data_to_data_frames` returns and the data bytes of
the final frame at every index `k` with `data_len <= k < M` are 0, whatever the frames
held before the call. -/
theorem C4_zero_padding (M : Nat) (crc16 : List Nat → Nat)
    (reads : List (Option (List Nat))) (addr : List Nat) (L : Nat) (frames : List data_frame_t)
    (fuel : Nat)
    (hM : 0 < M) (hM16 : M < UINT16_MOD) (hL : 0 < L) (hlen : addr.length = L)
    (hn : (L + M - 1) / M ≤ N_FRAME_MOD) (hfr : (L + M - 1) / M ≤ frames.length)
    (hfuel : (L + M - 1) / M ≤ fuel) :
    ∃ fr g, data_to_data_frames M crc16 reads (some addr) L frames fuel = some fr
      ∧ fr[(L + M - 1) / M - 1]? = some g
      ∧ g.data_len = L - ((L + M - 1) / M - 1) * M
      ∧ ∀ k, g.data_len ≤ k → k < M → g.data[k]? = some 0 := by
  rw [ceil_div_eq L M hM hL] at hn hfr hfuel ⊢
  have hb : (L - 1) / M < N_FRAME_MOD := by omega
  have hLs : L < SIZE_MOD :=
    Nat.lt_of_lt_of_le (payload_lt_size L M hM hM16 hb) (by decide)
  obtain ⟨fr, hrun, -, -, -, f, -, hlast⟩ :=
    chunk_result M crc16 reads addr L frames hM hM16 hL hb (by omega) fuel (by omega)
  rw [Nat.add_sub_cancel]
  have hdl := fill_last_data_len M crc16 L (addr.drop ((L - 1) / M * M)) f hM hM16 hL hLs
  have hbd := last_len_bounds L M hM hL
  refine ⟨fr, _, hrun, hlast, hdl, ?_⟩
  intro k hk1 hk2
  rw [fill_last_data, hdl] at *
  exact memset_zero_getElem? _ _ _ k (by unfold memcpy; simp; omega) hk1 (by omega)

/-- Instance of C4: a payload of 1 byte with a data capacity of 256 bytes gives a final
frame with `data_len = 1` whose bytes 1 .. 255 are zero. -/
theorem C4_zero_padding_witness :
    ∃ fr g, data_to_data_frames 256 sum16 [] (some [7]) 1 [stale_frame_256] 1 = some fr
      ∧ fr[0]? = some g
      ∧ g.data_len = 1
      ∧ ∀ k, g.data_len ≤ k → k < 256 → g.data[k]? = some 0 :=
  C4_zero_padding 256 sum16 [] [7] 1 [stale_frame_256] 1
    (by decide) (by decide) (by decide) (by decide) (by decide) (by decide) (by decide)

/-- C4 as stated fails: with a data capacity of 256 bytes a payload of 65537 * 256 + 100
bytes needs 65538 frames; the 16-bit counter never reaches the loop bound, the code after
the loop that pads the final frame is never run, and nothing is returned. -/
theorem C4_zero_padding_counterexample :
    0 < 16777572
      ∧ (List.replicate 16777572 0).length = 16777572
      ∧ (16777572 + 256 - 1) / 256 ≤ (List.replicate 65538 stale_frame_256).length
      ∧ ¬ ∃ fuel fr, data_to_data_frames 256 sum16 [] (some (List.replicate 16777572 0))
          16777572 (List.replicate 65538 stale_frame_256) fuel = some fr :=
  ⟨by decide, List.length_replicate _ _, by rw [List.length_replicate],
    fun ⟨fuel, fr, h⟩ => by
      rw [data_to_data_frames_diverges 256 sum16 [] _ 16777572 _ (by decide) (by decide)
        (by decide) fuel] at h
      cases h⟩

/-- C5. Total length: `data_frame_to_data_len(gs, m)` returns the sum of `data_len` over
the frames `0 .. m-1` of any frame array, and for an in-memory payload of length `L > 0`
chunked by `data_to_data_frames` into `n = ceil(L / M)` frames, `n` an `n_frame_t`, both
the call on the filled frames with `n` and that sum equal `L`. -/
theorem C5_total_length (M : Nat) (crc16 : List Nat → Nat)
    (reads : List (Option (List Nat))) (addr : List Nat) (L : Nat) (frames : List data_frame_t)
    (fuel : Nat) (gs : List data_frame_t) (m : Nat)
    (hm : m < N_FRAME_MOD) (hgs : m ≤ gs.length) (hdl : ∀ g ∈ gs, g.data_len < UINT16_MOD)
    (hM : 0 < M) (hM16 : M < UINT16_MOD) (hL : 0 < L)
    (hn : (L + M - 1) / M < N_FRAME_MOD) (hfr : (L + M - 1) / M ≤ frames.length)
    (hfuel : (L + M - 1) / M ≤ fuel) :
    data_frame_to_data_len gs m = ((gs.take m).map (fun g => g.data_len)).sum
      ∧ ∃ fr, data_to_data_frames M crc16 reads (some addr) L frames fuel = some fr
          ∧ data_frame_to_data_len fr ((L + M - 1) / M) = L
          ∧ ((fr.take ((L + M - 1) / M)).map (fun g => g.data_len)).sum = L := by
  refine ⟨(data_frame_to_data_len_eq_sum gs hdl m hgs hm).1, ?_⟩
  rw [ceil_div_eq L M hM hL] at hn hfr hfuel ⊢
  have hb : (L - 1) / M < N_FRAME_MOD := by omega
  have hLs : L < SIZE_MOD :=
    Nat.lt_of_lt_of_le (payload_lt_size L M hM hM16 hb) (by decide)
  obtain ⟨fr, hrun, -, -, hfull, f, -, hlast⟩ :=
    chunk_result M crc16 reads addr L frames hM hM16 hL hb (by omega) fuel (by omega)
  have hbL := div_mul_le_pred L M hL
  have hfull' : ∀ j, j < (L - 1) / M → ∃ g, fr[j]? = some g ∧ g.data_len = M := by
    intro j hj
    obtain ⟨f', -, hg⟩ := hfull j hj
    exact ⟨_, hg, fill_full_data_len M crc16 _ f' hM16⟩
  have hdl := fill_last_data_len M crc16 L (addr.drop ((L - 1) / M * M)) f hM hM16 hL hLs
  have hsum : (L - 1) / M * M + (L - (L - 1) / M * M) = L := by omega
  refine ⟨fr, hrun, ?_, ?_⟩
  · rw [data_frame_to_data_len_succ fr _ _ hlast,
      data_len_sum_full M fr _ (by omega) hfull' _ (Nat.le_refl _), hdl, hsum]
    exact Nat.mod_eq_of_lt hLs
  · rw [List.take_succ, hlast, List.map_append, List.sum_append,
      data_len_list_sum_full M fr _ hfull' _ (Nat.le_refl _)]
    simp only [Option.toList, List.map_cons, List.map_nil, List.sum_cons, List.sum_nil,
      Nat.add_zero, hdl]
    exact hsum

/-- Instance of C5: the sum over two stale frames, and a payload of 5 bytes chunked with
a data capacity of 4 bytes. -/
theorem C5_total_length_witness :
    data_frame_to_data_len [stale_frame, stale_frame, stale_frame] 2
        = ((List.take 2 [stale_frame, stale_frame, stale_frame]).map (fun g => g.data_len)).sum
      ∧ ∃ fr, data_to_data_frames 4 sum16 [] (some [1, 2, 3, 4, 5]) 5
            [stale_frame, stale_frame, stale_frame] 2 = some fr
          ∧ data_frame_to_data_len fr 2 = 5
          ∧ ((fr.take 2).map (fun g => g.data_len)).sum = 5 :=
  C5_total_length 4 sum16 [] [1, 2, 3, 4, 5] 5 [stale_frame, stale_frame, stale_frame] 2
    [stale_frame, stale_frame, stale_frame] 2
    (by decide) (by decide) (by decide) (by decide) (by decide) (by decide) (by decide)
    (by decide) (by decide)

/-- C6. Checksum is stamped last: for an in-memory payload of length `L > 0`, whenever
`data_to_data_frames` returns, every frame `j < ceil(L / M)` it filled has `check_sum`
equal to `crc16` of the frame's own image without the check_sum field, taken with the
frame's final data and `data_len`; the same holds for frames built by `alloc_data_frames`,
whose image moreover carries the header, `n_file`, `n_frame` and `flag` stamped by
`init_data_frames`.  The call does return whenever the frame count is at most 2^16. -/
theorem C6_check_sum_stamped_last (M : Nat) (crc16 : List Nat → Nat)
    (reads : List (Option (List Nat))) (addr : List Nat) (L : Nat)
    (frames : List data_frame_t) (fuel : Nat) (fr : List data_frame_t)
    (hp : List data_frame_t) (n_file flag fuel2 : Nat) (fr2 : List data_frame_t)
    (hM : 0 < M) (hM16 : M < UINT16_MOD) (hL : 0 < L) (hLs : L < SIZE_MOD)
    (hfr : (L + M - 1) / M ≤ frames.length)
    (hret : data_to_data_frames M crc16 reads (some addr) L frames fuel = some fr)
    (hhp : hp.length = (L + M - 1) / M) (hhdr : ∀ h ∈ hp, h.header.length = 4)
    (hret2 : alloc_data_frames M crc16 reads (some hp) ((L + M - 1) / M) n_file (some addr) L
      flag fuel2 = some (some fr2)) :
    (∀ j, j < (L + M - 1) / M → ∃ g, fr[j]? = some g ∧ g.check_sum = crc16 (frame_image g))
      ∧ (∀ j, j < (L + M - 1) / M → ∃ g, fr2[j]? = some g
          ∧ g.check_sum = crc16 (frame_image g) ∧ g.header = tp_header ∧ g.n_file = n_file
          ∧ g.n_frame = id_to_n_frame j ((L + M - 1) / M) ∧ g.flag = flag)
      ∧ ((L + M - 1) / M ≤ N_FRAME_MOD → ∀ fuel', (L + M - 1) / M ≤ fuel' →
          ∃ fr', data_to_data_frames M crc16 reads (some addr) L frames fuel' = some fr') := by
  rw [ceil_div_eq L M hM hL] at hfr hhp hret2 ⊢
  refine ⟨?_, ?_, ?_⟩
  · intro j hj
    obtain ⟨f, g, -, hg, hcs, -⟩ :=
      returned_frame_at M crc16 reads addr L frames fuel fr hM hM16 hL hLs (by omega) hret j
        (by omega)
    exact ⟨g, hg, hcs⟩
  · intro j hj
    have hret3 := (alloc_returns M crc16 reads hp _ n_file addr L flag fuel2 fr2).1 hret2
    have hb := returns_frame_count M crc16 reads addr L _ fuel2 fr2 hL hLs hret3
    obtain ⟨f, g, hf, hg, hcs, hh, hnf, hfn, hfl, -⟩ :=
      returned_frame_at M crc16 reads addr L _ fuel2 fr2 hM hM16 hL hLs
        (by rw [init_data_frames_length]; omega) hret3 j (by omega)
    obtain ⟨h0, f', hh0, hf', ih, inf, ifn, ifl, -⟩ :=
      init_data_frames_at hp ((L - 1) / M + 1) n_file flag j (by omega) (by omega) hj
    rw [hf'] at hf
    cases hf
    have hlen4 : h0.header.length = 4 := hhdr h0 (List.getElem?_mem hh0)
    refine ⟨g, hg, hcs, ?_, ?_, ?_, ?_⟩
    · rw [hh, ih]; exact memcpy_tp_header _ hlen4
    · rw [hnf, inf]
    · rw [hfn, ifn]
    · rw [hfl, ifl]
  · intro hn fuel' hfuel'
    obtain ⟨fr', hrun, -⟩ :=
      chunk_result M crc16 reads addr L frames hM hM16 hL (by omega) (by omega) fuel' (by omega)
    exact ⟨fr', hrun⟩

/-- Instance of C6: a payload of 5 bytes with a data capacity of 4 bytes, chunked into
stale frames directly and through `alloc_data_frames` with `n_file = 11` and `flag = 1`. -/
theorem C6_check_sum_stamped_last_witness :
    (∀ j, j < 2 → ∃ g, chunked_sample[j]? = some g ∧ g.check_sum = sum16 (frame_image g))
      ∧ (∀ j, j < 2 → ∃ g, allocated_sample[j]? = some g
          ∧ g.check_sum = sum16 (frame_image g) ∧ g.header = tp_header ∧ g.n_file = 11
          ∧ g.n_frame = id_to_n_frame j 2 ∧ g.flag = 1)
      ∧ ∃ fr', data_to_data_frames 4 sum16 [] (some [1, 2, 3, 4, 5]) 5
          [stale_frame, stale_frame, stale_frame] 2 = some fr' :=
  have h := C6_check_sum_stamped_last 4 sum16 [] [1, 2, 3, 4, 5] 5
    [stale_frame, stale_frame, stale_frame] 2 chunked_sample
    [stale_frame, stale_frame] 11 1 2 allocated_sample
    (by decide) (by decide) (by decide) (by decide) (by decide) (by decide) (by decide)
    (by decide) (by decide)
  ⟨h.1, h.2.1, h.2.2 (by decide) 2 (by decide)⟩

/-- C7, as amended. Transfer built by `alloc_data_frames(n_frame, n_file, addr, len, flag)`
from an in-memory payload of length `L > 0` with `n_frame = ceil(L / M)`, an `n_frame_t`:
the call returns `n_frame` frames, each with the `n_file` of the call; the sum of all
`data_len` values equals `L`; `n_total_frame` and `total_data_len` are never written and
keep, in every frame, what the freshly allocated memory held. -/
theorem C7_transfer_fields (M : Nat) (crc16 : List Nat → Nat)
    (reads : List (Option (List Nat))) (addr : List Nat) (L : Nat)
    (hp : List data_frame_t) (n_file flag fuel : Nat)
    (hM : 0 < M) (hM16 : M < UINT16_MOD) (hL : 0 < L)
    (hn : (L + M - 1) / M < N_FRAME_MOD) (hhp : hp.length = (L + M - 1) / M)
    (hfuel : (L + M - 1) / M ≤ fuel) :
    ∃ fr, alloc_data_frames M crc16 reads (some hp) ((L + M - 1) / M) n_file (some addr) L
          flag fuel = some (some fr)
      ∧ fr.length = (L + M - 1) / M
      ∧ (∀ j, j < (L + M - 1) / M → ∃ h g, hp[j]? = some h ∧ fr[j]? = some g
          ∧ g.n_file = n_file ∧ g.n_total_frame = h.n_total_frame
          ∧ g.total_data_len = h.total_data_len)
      ∧ ((fr.take ((L + M - 1) / M)).map (fun g => g.data_len)).sum = L := by
  rw [ceil_div_eq L M hM hL] at hn hhp hfuel ⊢
  have hb : (L - 1) / M < N_FRAME_MOD := by omega
  have hLs : L < SIZE_MOD :=
    Nat.lt_of_lt_of_le (payload_lt_size L M hM hM16 hb) (by decide)
  have hil : (L - 1) / M < (init_data_frames hp ((L - 1) / M + 1) n_file flag).length := by
    rw [init_data_frames_length]; omega
  obtain ⟨fr, hrun, hlength, -, hfull, hlast⟩ :=
    chunk_result M crc16 reads addr L _ hM hM16 hL hb hil fuel (by omega)
  refine ⟨fr, (alloc_returns M crc16 reads hp _ n_file addr L flag fuel fr).2 hrun, ?_, ?_,
    chunked_data_len_sum M crc16 addr L _ fr hM hM16 hL hLs hfull hlast⟩
  · rw [hlength, init_data_frames_length, hhp]
  · intro j hj
    obtain ⟨f, g, hf, hg, -, -, hnf, -, -, htf, htl⟩ :=
      returned_frame_at M crc16 reads addr L _ fuel fr hM hM16 hL hLs hil hrun j (by omega)
    obtain ⟨h0, f', hh0, hf', -, inf, -, -, itf, itl⟩ :=
      init_data_frames_at hp ((L - 1) / M + 1) n_file flag j (by omega) (by omega) hj
    rw [hf'] at hf
    cases hf
    exact ⟨h0, g, hh0, hg, by rw [hnf, inf], by rw [htf, itf], by rw [htl, itl]⟩

/-- Instance of C7: a payload of 5 bytes with a data capacity of 4 bytes, allocated over
two stale frames. -/
theorem C7_transfer_fields_witness :
    ∃ fr, alloc_data_frames 4 sum16 [] (some [stale_frame, stale_frame]) 2 11
          (some [1, 2, 3, 4, 5]) 5 1 2 = some (some fr)
      ∧ fr.length = 2
      ∧ (∀ j, j < 2 → ∃ h g, [stale_frame, stale_frame][j]? = some h ∧ fr[j]? = some g
          ∧ g.n_file = 11 ∧ g.n_total_frame = h.n_total_frame
          ∧ g.total_data_len = h.total_data_len)
      ∧ ((fr.take 2).map (fun g => g.data_len)).sum = 5 :=
  C7_transfer_fields 4 sum16 [] [1, 2, 3, 4, 5] 5 [stale_frame, stale_frame] 11 1 2
    (by decide) (by decide) (by decide) (by decide) (by decide) (by decide)

/-- C7 as stated fails: a one-frame transfer of a 1-byte payload built over memory whose
frame holds `n_total_frame = 7` and `total_data_len = 99` comes back with these two
values, not with `n_total_frame = 1` and `total_data_len = 1`. -/
theorem C7_transfer_fields_counterexample :
    ∃ fr g, alloc_data_frames 256 sum16 [] (some [stale_frame_256]) ((1 + 256 - 1) / 256) 11
          (some [7]) 1 1 1 = some (some fr)
      ∧ fr[0]? = some g
      ∧ g.data_len = 1
      ∧ g.n_total_frame = 7 ∧ g.n_total_frame ≠ (1 + 256 - 1) / 256
      ∧ g.total_data_len = 99 ∧ g.total_data_len ≠ g.data_len :=
  ⟨_, _, rfl, rfl, rfl, rfl, by decide, rfl, by decide⟩

/-- C8. Frame initialisation: after `init_data_frames(frames, n, n_file, flag)` every frame
`i < n` has the magic bytes 3A 62 04 3F as header, the given `n_file` and `flag`, and
`n_frame = id_to_n_frame(i, n)`. -/
theorem C8_init_data_frames (frames : List data_frame_t) (n n_file flag i : Nat)
    (hn : n < N_FRAME_MOD) (hfr : n ≤ frames.length)
    (hhdr : ∀ f ∈ frames, f.header.length = 4) (hi : i < n) :
    ∃ g, (init_data_frames frames n n_file flag)[i]? = some g
      ∧ g.header = [0x3A, 0x62, 0x04, 0x3F] ∧ g.n_file = n_file ∧ g.flag = flag
      ∧ g.n_frame = id_to_n_frame i n := by
  obtain ⟨f, g, hf, hg, hh, hnf, hfn, hfl, -⟩ :=
    init_data_frames_at frames n n_file flag i (by omega) hfr hi
  refine ⟨g, hg, ?_, hnf, hfl, hfn⟩
  rw [hh, memcpy_tp_header _ (hhdr f (List.getElem?_mem hf))]
  rfl

/-- Instance of C8: three stale frames, the first two initialised, seen at index 1. -/
theorem C8_init_data_frames_witness :
    ∃ g, (init_data_frames [stale_frame, stale_frame, stale_frame] 2 11 1)[1]? = some g
      ∧ g.header = [0x3A, 0x62, 0x04, 0x3F] ∧ g.n_file = 11 ∧ g.flag = 1
      ∧ g.n_frame = id_to_n_frame 1 2 :=
  C8_init_data_frames [stale_frame, stale_frame, stale_frame] 2 11 1 1
    (by decide) (by decide) (by decide) (by decide)

/-- C9 at the failing input: `id_to_n_frame(0, 2)` is 0, not 1, and `init_data_frames` with
two frames stamps the sequence numbers 0 and 1, not 1 and 2. -/
theorem C9_id_to_n_frame_no_offset :
    id_to_n_frame 0 2 = 0
      ∧ (init_data_frames [stale_frame, stale_frame] 2 11 1).map (fun g => g.n_frame)
          = [0, 1] := by
  decide

/-- C10. Sequencer round trip: `n_frame_to_id(id_to_n_frame(0, 1), 1) = 0` with
`id_to_n_frame(0, 1) = 0`, and for `len > 1` and every `id`, in particular every `id` in
`[0, len)`, `n_frame_to_id(id_to_n_frame(id, len), len) = id`. -/
theorem C10_sequencer_round_trip (id len : Nat) (hlen : 1 < len) :
    n_frame_to_id (id_to_n_frame 0 1) 1 = 0 ∧ id_to_n_frame 0 1 = 0
      ∧ n_frame_to_id (id_to_n_frame id len) len = id := by
  have hne : len ≠ 1 := by omega
  refine ⟨by decide, by decide, ?_⟩
  simp [n_frame_to_id, id_to_n_frame, hne]

/-- Instance of C10: index 2 of a transfer of 3 frames. -/
theorem C10_sequencer_round_trip_witness :
    n_frame_to_id (id_to_n_frame 0 1) 1 = 0 ∧ id_to_n_frame 0 1 = 0
      ∧ n_frame_to_id (id_to_n_frame 2 3) 3 = 2 :=
  C10_sequencer_round_trip 2 3 (by decide)

/-- C11 at the failing input: on a little-endian host the conversion of `send_data_frame`
turns `n_total_frame = 5` into 0, and the conversion of `receive_data_frame` leaves 0, not
the 5 the claim promises. -/
theorem C11_n_total_frame_lost_on_little_endian :
    sample_data_frame.n_total_frame = 5
      ∧ (send_data_frame_convert false sample_data_frame).n_total_frame = 0
      ∧ (receive_data_frame_convert false
          (send_data_frame_convert false sample_data_frame)).n_total_frame = 0 := by
  decide

/-- C12. Field codec round trip: for either host byte order, the conversions of
`receive_frame` applied after those of `send_frame` give back `n_file`, `n_frame` and
`status` of a control frame, and the conversions of `receive_data_frame` applied after
those of `send_data_frame` give back `n_file`, `n_frame`, `total_data_len` and `data_len`
of a data frame. -/
theorem C12_field_codec_round_trip (be : Bool) (f : frame_t) (g : data_frame_t)
    (hf1 : f.n_file < 4294967296) (hf2 : f.n_frame < 65536) (hf3 : f.status < 65536)
    (hg1 : g.n_file < 4294967296) (hg2 : g.n_frame < 65536)
    (hg3 : g.total_data_len < 4294967296) (hg4 : g.data_len < 65536) :
    ((receive_frame_convert be (send_frame_convert be f)).n_file = f.n_file
        ∧ (receive_frame_convert be (send_frame_convert be f)).n_frame = f.n_frame
        ∧ (receive_frame_convert be (send_frame_convert be f)).status = f.status)
      ∧ ((receive_data_frame_convert be (send_data_frame_convert be g)).n_file = g.n_file
        ∧ (receive_data_frame_convert be (send_data_frame_convert be g)).n_frame = g.n_frame
        ∧ (receive_data_frame_convert be (send_data_frame_convert be g)).total_data_len
            = g.total_data_len
        ∧ (receive_data_frame_convert be (send_data_frame_convert be g)).data_len
            = g.data_len) :=
  ⟨⟨le32toh_htole32 be f.n_file hf1, le16toh_htole16 be f.n_frame hf2,
      le16toh_htole16 be f.status hf3⟩,
    ⟨le32toh_htole32 be g.n_file hg1, le16toh_htole16 be g.n_frame hg2,
      le32toh_htole32 be g.total_data_len hg3, le16toh_htole16 be g.data_len hg4⟩⟩

/-- Instance of C12: the sample frames on a big-endian host. -/
theorem C12_field_codec_round_trip_witness :
    ((receive_frame_convert true (send_frame_convert true sample_frame)).n_file = 11
        ∧ (receive_frame_convert true (send_frame_convert true sample_frame)).n_frame = 2
        ∧ (receive_frame_convert true (send_frame_convert true sample_frame)).status = 513)
      ∧ ((receive_data_frame_convert true (send_data_frame_convert true sample_data_frame)).n_file
            = 11
        ∧ (receive_data_frame_convert true (send_data_frame_convert true sample_data_frame)).n_frame
            = 0
        ∧ (receive_data_frame_convert true
            (send_data_frame_convert true sample_data_frame)).total_data_len = 3
        ∧ (receive_data_frame_convert true
            (send_data_frame_convert true sample_data_frame)).data_len = 3) :=
  C12_field_codec_round_trip true sample_frame sample_data_frame (by decide) (by decide)
    (by decide) (by decide) (by decide) (by decide) (by decide)

/-- C13 at the failing input: on a little-endian host `send_data_frame` stamps the checksum
of the sample frame with `n_total_frame = 5`, then turns that field into 0 and writes the
26 bytes shown; `receive_data_frame` on exactly these bytes finds another checksum and
returns -1, leaving the caller's frame alone.  With `n_total_frame = 0` the same frame is
accepted. -/
theorem C13_sent_frame_rejected :
    send_data_frame false sum16 1 26 sample_data_frame
        = (26, { sample_data_frame with
                  n_total_frame := 0
                  check_sum := 252 },
            some [58, 98, 4, 63, 11, 0, 0, 0, 0, 0, 0, 0, 0, 1, 3, 0, 0, 0, 3, 0, 1, 2, 3, 0,
              252, 0])
      ∧ sum16 (List.take 24 [58, 98, 4, 63, 11, 0, 0, 0, 0, 0, 0, 0, 0, 1, 3, 0, 0, 0, 3, 0,
          1, 2, 3, 0, 252, 0]) = 247
      ∧ receive_data_frame false sum16 4 1 26
          [58, 98, 4, 63, 11, 0, 0, 0, 0, 0, 0, 0, 0, 1, 3, 0, 0, 0, 3, 0, 1, 2, 3, 0, 252, 0]
          stale_frame = (-1, stale_frame)
      ∧ (∃ w, (send_data_frame false sum16 1 26
              { sample_data_frame with n_total_frame := 0 }).2.2 = some w
          ∧ (receive_data_frame false sum16 4 1 26 w stale_frame).1 = 26) := by
  refine ⟨by decide, by decide, by decide, _, rfl, by decide⟩

/-- C14 at the failing input: the channel is ready, `read` returns -1 and the scratch
buffer happens to hold the image of a frame with a fitting checksum.  The test
`n < sizeof(*frame)` compares -1 as the `size_t` 2^64 - 1 and does not fire, the checksum
test passes, and the call copies the scratch buffer over the caller's frame while it
returns -1.  The claim has the caller's frame unchanged whenever -1 is returned. -/
theorem C14_read_error_overwrites_frame :
    ssize_lt_size (-1) FRAME_SIZE = false
      ∧ ssize_lt_size (-1) (DATA_FRAME_SIZE 4) = false
      ∧ receive_frame false sum16 1 (-1) [58, 98, 4, 63, 11, 0, 0, 0, 2, 0, 1, 2, 239, 0]
          stale_control_frame
        = (-1, { header := [58, 98, 4, 63], n_file := 11, n_frame := 2, status := 513,
                  check_sum := 239 })
      ∧ receive_frame false sum16 1 (-1) [58, 98, 4, 63, 11, 0, 0, 0, 2, 0, 1, 2, 239, 0]
          stale_control_frame ≠ (-1, stale_control_frame)
      ∧ (receive_data_frame false sum16 4 1 (-1)
          [58, 98, 4, 63, 11, 0, 0, 0, 0, 0, 0, 0, 0, 1, 3, 0, 0, 0, 3, 0, 1, 2, 3, 0, 247, 0]
          stale_frame).1 = -1
      ∧ (receive_data_frame false sum16 4 1 (-1)
          [58, 98, 4, 63, 11, 0, 0, 0, 0, 0, 0, 0, 0, 1, 3, 0, 0, 0, 3, 0, 1, 2, 3, 0, 247, 0]
          stale_frame).2.data = [1, 2, 3, 0]
      ∧ stale_frame.data = [8, 8, 8, 8] := by
  decide

/-- C15, as amended. For `send_frame` and `send_data_frame`: when the channel is ready the
call hands the whole frame, all `sizeof` bytes of it, to one `write` and returns what that
`write` returned, so a count below the frame size comes back as that count; when the
channel is not ready the call returns -1 and writes nothing; hence the result is -1
exactly when the channel was not ready or the `write` itself returned -1. -/
theorem C15_send_returns_write_result (be : Bool) (crc16 : List Nat → Nat) (M : Nat)
    (num wr : Int) (frame : frame_t) (dframe : data_frame_t)
    (hh : frame.header.length = 4) (hdh : dframe.header.length = 4)
    (hdd : dframe.data.length = M) :
    (1 ≤ num →
        (send_frame be crc16 num wr frame).1 = wr
          ∧ (∃ w, (send_frame be crc16 num wr frame).2.2 = some w ∧ w.length = FRAME_SIZE)
          ∧ (send_data_frame be crc16 num wr dframe).1 = wr
          ∧ (∃ w, (send_data_frame be crc16 num wr dframe).2.2 = some w
              ∧ w.length = DATA_FRAME_SIZE M))
      ∧ (num < 1 →
        (send_frame be crc16 num wr frame).1 = -1
          ∧ (send_frame be crc16 num wr frame).2.2 = none
          ∧ (send_data_frame be crc16 num wr dframe).1 = -1
          ∧ (send_data_frame be crc16 num wr dframe).2.2 = none)
      ∧ ((send_frame be crc16 num wr frame).1 = -1 ↔ num < 1 ∨ wr = -1)
      ∧ ((send_data_frame be crc16 num wr dframe).1 = -1 ↔ num < 1 ∨ wr = -1) := by
  refine ⟨?_, ?_, ?_, ?_⟩
  · intro hnum
    rw [send_frame_ready be crc16 num wr frame hnum,
      send_data_frame_ready be crc16 num wr dframe hnum]
    exact ⟨rfl, ⟨_, rfl, frame_bytes_length be _ hh⟩, rfl,
      ⟨_, rfl, data_frame_bytes_length be M _ hdh hdd⟩⟩
  · intro hnum
    rw [send_frame_not_ready be crc16 num wr frame hnum,
      send_data_frame_not_ready be crc16 num wr dframe hnum]
    exact ⟨rfl, rfl, rfl, rfl⟩
  · rcases Int.lt_or_le num 1 with hnum | hnum
    · rw [send_frame_not_ready be crc16 num wr frame hnum]
      exact ⟨fun _ => Or.inl hnum, fun _ => rfl⟩
    · rw [send_frame_ready be crc16 num wr frame hnum]
      exact ⟨fun h => Or.inr h, fun h => h.elim (fun h1 => absurd h1 (by omega)) id⟩
  · rcases Int.lt_or_le num 1 with hnum | hnum
    · rw [send_data_frame_not_ready be crc16 num wr dframe hnum]
      exact ⟨fun _ => Or.inl hnum, fun _ => rfl⟩
    · rw [send_data_frame_ready be crc16 num wr dframe hnum]
      exact ⟨fun h => Or.inr h, fun h => h.elim (fun h1 => absurd h1 (by omega)) id⟩

/-- Instance of C15 on a little-endian host with a data capacity of 4 bytes: with the
channel ready a write of 5 bytes comes back as 5 for both kinds of frame, and with the
channel not ready both calls return -1 and write nothing. -/
theorem C15_send_returns_write_result_witness :
    ((send_frame false sum16 1 5 sample_frame).1 = 5
        ∧ (∃ w, (send_frame false sum16 1 5 sample_frame).2.2 = some w
            ∧ w.length = FRAME_SIZE)
        ∧ (send_data_frame false sum16 1 5 sample_data_frame).1 = 5
        ∧ (∃ w, (send_data_frame false sum16 1 5 sample_data_frame).2.2 = some w
            ∧ w.length = DATA_FRAME_SIZE 4))
      ∧ ((send_frame false sum16 0 5 sample_frame).1 = -1
        ∧ (send_frame false sum16 0 5 sample_frame).2.2 = none
        ∧ (send_data_frame false sum16 0 5 sample_data_frame).1 = -1
        ∧ (send_data_frame false sum16 0 5 sample_data_frame).2.2 = none) :=
  ⟨(C15_send_returns_write_result false sum16 4 1 5 sample_frame sample_data_frame
      (by decide) (by decide) (by decide)).1 (by decide),
    (C15_send_returns_write_result false sum16 4 0 5 sample_frame sample_data_frame
      (by decide) (by decide) (by decide)).2.1 (by decide)⟩

/-- C15 as stated fails: with the channel ready and a write that transfers 5 bytes of the
14 of a control frame, or of the 26 of a data frame, the call returns 5, not -1. -/
theorem C15_short_write_counterexample :
    (5 : Int) < (FRAME_SIZE : Int) ∧ (5 : Int) < (DATA_FRAME_SIZE 4 : Int)
      ∧ (send_frame false sum16 1 5 sample_frame).1 = 5
      ∧ (send_data_frame false sum16 1 5 sample_data_frame).1 = 5
      ∧ (send_frame false sum16 1 5 sample_frame).1 ≠ -1
      ∧ (send_data_frame false sum16 1 5 sample_data_frame).1 ≠ -1 := by
  decide

/-- C16 at the failing input: a source of 8 bytes with a data capacity of 4 bytes hands out
two reads of 4 bytes and then a read of 0 bytes.  The path with a file descriptor fills
three frames, the third with `data_len = 0` and zeroed data, where the in-memory path on
the same 8 bytes fills two and leaves the third frame stale.  For 5 bytes the two paths
give the same frames. -/
theorem C16_source_fills_extra_frame :
    source_reads 4 9 [1, 2, 3, 4, 5, 6, 7, 8]
        = [some [1, 2, 3, 4], some [5, 6, 7, 8], some []]
      ∧ (data_to_data_frames 4 sum16 (source_reads 4 9 [1, 2, 3, 4, 5, 6, 7, 8]) none 3
            [stale_frame, stale_frame, stale_frame] 0).map
          (List.map (fun g => (g.data_len, g.data)))
        = some [(4, [1, 2, 3, 4]), (4, [5, 6, 7, 8]), (0, [0, 0, 0, 0])]
      ∧ (data_to_data_frames 4 sum16 [] (some [1, 2, 3, 4, 5, 6, 7, 8]) 8
            [stale_frame, stale_frame, stale_frame] 2).map
          (List.map (fun g => (g.data_len, g.data)))
        = some [(4, [1, 2, 3, 4]), (4, [5, 6, 7, 8]), (2, [8, 8, 8, 8])]
      ∧ (8 + 4 - 1) / 4 = 2
      ∧ data_to_data_frames 4 sum16 (source_reads 4 6 [1, 2, 3, 4, 5]) none 3
            [stale_frame, stale_frame, stale_frame] 0
        = data_to_data_frames 4 sum16 [] (some [1, 2, 3, 4, 5]) 5
            [stale_frame, stale_frame, stale_frame] 2 := by
  decide

/-- C17. Observed sequencer behaviour: `id_to_n_frame` and `n_frame_to_id` return their
first argument unchanged for every `len`, equal to 1 or not. -/
theorem C17_sequencer_is_identity (id n_frame len : Nat) :
    id_to_n_frame id len = id ∧ n_frame_to_id n_frame len = n_frame := by
  unfold id_to_n_frame n_frame_to_id
  constructor <;> split <;> rfl

/-- C18 at the failing input: for `len = 0` and a data capacity of 256 bytes the `size_t`
value `len - 1` is 2^64 - 1, the frame count comes out as 2^56 and the loop bound as
2^56 - 1.  The first pass of the loop already copies 256 bytes into frame 0 and sets its
`data_len` to 256, and the call returns for no amount of fuel. -/
theorem C18_empty_payload_overwrites_frames :
    size_sub 0 1 = 18446744073709551615
      ∧ size_sub ((size_sub 0 1 / 256 + 1) % SIZE_MOD) 1 = 72057594037927935
      ∧ (∀ fuel, mem_loop 256 sum16 (List.replicate 256 7) 72057594037927935 (fuel + 1) 0 0
            [stale_frame_256]
          = mem_loop 256 sum16 (List.replicate 256 7) 72057594037927935 fuel 1 256
              [fill_full 256 sum16 (List.replicate 256 7) stale_frame_256])
      ∧ stale_frame_256.data_len = 2
      ∧ (fill_full 256 sum16 (List.replicate 256 7) stale_frame_256).data_len = 256
      ∧ ∀ fuel, data_to_data_frames 256 sum16 [] (some (List.replicate 256 7)) 0
          [stale_frame_256] fuel = none :=
  ⟨by decide, by decide,
    fun fuel => by rw [mem_loop, if_pos (by decide)]; rfl,
    rfl, rfl,
    fun fuel => data_to_data_frames_diverges_of_bound 256 sum16 [] _ 0 _ (by decide) fuel⟩

/-- C19. Chunking owns only payload and checksum: whenever `data_to_data_frames` returns
for an in-memory payload of length `L > 0`, every frame of the array has the header,
`n_file`, `n_frame`, `flag`, `n_total_frame` and `total_data_len` it had before, and the
frames from index `ceil(L / M)` on are wholly as before; so every frame `j < n_frame` that
`alloc_data_frames` returns carries the header, `n_file`, `n_frame` and `flag` stamped by
`init_data_frames`.  The call does return whenever the frame count is at most 2^16. -/
theorem C19_chunking_keeps_stamps (M : Nat) (crc16 : List Nat → Nat)
    (reads : List (Option (List Nat))) (addr : List Nat) (L : Nat)
    (frames : List data_frame_t) (fuel : Nat) (fr : List data_frame_t)
    (hp : List data_frame_t) (n_frame n_file flag fuel2 : Nat) (fr2 : List data_frame_t)
    (hM : 0 < M) (hM16 : M < UINT16_MOD) (hL : 0 < L) (hLs : L < SIZE_MOD)
    (hfr : (L + M - 1) / M ≤ frames.length)
    (hret : data_to_data_frames M crc16 reads (some addr) L frames fuel = some fr)
    (hn : n_frame < N_FRAME_MOD) (hhp : n_frame ≤ hp.length)
    (hhdr : ∀ h ∈ hp, h.header.length = 4)
    (hret2 : alloc_data_frames M crc16 reads (some hp) n_frame n_file (some addr) L
      flag fuel2 = some (some fr2)) :
    fr.length = frames.length
      ∧ (∀ (j : Nat) (f : data_frame_t), frames[j]? = some f → ∃ g, fr[j]? = some g
          ∧ g.header = f.header ∧ g.n_file = f.n_file ∧ g.n_frame = f.n_frame
          ∧ g.flag = f.flag ∧ g.n_total_frame = f.n_total_frame
          ∧ g.total_data_len = f.total_data_len)
      ∧ (∀ j, (L + M - 1) / M ≤ j → fr[j]? = frames[j]?)
      ∧ (∀ j, j < n_frame → ∃ g, fr2[j]? = some g ∧ g.header = tp_header
          ∧ g.n_file = n_file ∧ g.n_frame = id_to_n_frame j n_frame ∧ g.flag = flag)
      ∧ ((L + M - 1) / M ≤ N_FRAME_MOD → ∀ fuel', (L + M - 1) / M ≤ fuel' →
          ∃ fr', data_to_data_frames M crc16 reads (some addr) L frames fuel' = some fr') := by
  rw [ceil_div_eq L M hM hL] at hfr ⊢
  obtain ⟨hlen, hkeep⟩ := data_to_data_frames_keeps M crc16 reads addr L frames fuel fr hret
  refine ⟨hlen, hkeep, ?_, ?_, ?_⟩
  · intro j hj
    exact (returned_frames M crc16 reads addr L frames fuel fr hM hM16 hL hLs (by omega)
      hret).2.1 j (by omega)
  · intro j hj
    have hret3 := (alloc_returns M crc16 reads hp n_frame n_file addr L flag fuel2 fr2).1 hret2
    obtain ⟨-, hkeep2⟩ := data_to_data_frames_keeps M crc16 reads addr L _ fuel2 fr2 hret3
    obtain ⟨h0, f', hh0, hf', ih, inf, ifn, ifl, -⟩ :=
      init_data_frames_at hp n_frame n_file flag j (by omega) hhp hj
    obtain ⟨g, hg, sh, snf, sfn, sfl, -⟩ := hkeep2 j f' hf'
    refine ⟨g, hg, ?_, by rw [snf, inf], by rw [sfn, ifn], by rw [sfl, ifl]⟩
    rw [sh, ih]
    exact memcpy_tp_header _ (hhdr h0 (List.getElem?_mem hh0))
  · intro hnb fuel' hfuel'
    obtain ⟨fr', hrun, -⟩ :=
      chunk_result M crc16 reads addr L frames hM hM16 hL (by omega) (by omega) fuel' (by omega)
    exact ⟨fr', hrun⟩

/-- Instance of C19: a payload of 5 bytes with a data capacity of 4 bytes, chunked into
stale frames directly and through `alloc_data_frames` with `n_file = 11` and `flag = 1`. -/
theorem C19_chunking_keeps_stamps_witness :
    chunked_sample.length = [stale_frame, stale_frame, stale_frame].length
      ∧ (∀ (j : Nat) (f : data_frame_t), [stale_frame, stale_frame, stale_frame][j]? = some f →
          ∃ g, chunked_sample[j]? = some g
          ∧ g.header = f.header ∧ g.n_file = f.n_file ∧ g.n_frame = f.n_frame
          ∧ g.flag = f.flag ∧ g.n_total_frame = f.n_total_frame
          ∧ g.total_data_len = f.total_data_len)
      ∧ (∀ j, 2 ≤ j → chunked_sample[j]? = [stale_frame, stale_frame, stale_frame][j]?)
      ∧ (∀ j, j < 2 → ∃ g, allocated_sample[j]? = some g ∧ g.header = tp_header
          ∧ g.n_file = 11 ∧ g.n_frame = id_to_n_frame j 2 ∧ g.flag = 1)
      ∧ ∃ fr', data_to_data_frames 4 sum16 [] (some [1, 2, 3, 4, 5]) 5
          [stale_frame, stale_frame, stale_frame] 2 = some fr' :=
  have h := C19_chunking_keeps_stamps 4 sum16 [] [1, 2, 3, 4, 5] 5
    [stale_frame, stale_frame, stale_frame] 2 chunked_sample
    [stale_frame, stale_frame] 2 11 1 2 allocated_sample
    (by decide) (by decide) (by decide) (by decide) (by decide) (by decide) (by decide)
    (by decide) (by decide) (by decide)
  ⟨h.1, h.2.1, h.2.2.1, h.2.2.2.1, h.2.2.2.2 (by decide) 2 (by decide)⟩

/-- C20 at the failing input: for a payload of 65537 * 256 bytes and a data capacity of
256 bytes the claim has the loop left after 65536 passes.  The loop bound is 65536, the
16-bit counter goes from 65535 back to 0, and the loop is left for no amount of fuel. -/
theorem C20_loop_never_left :
    (16777472 + 256 - 1) / 256 - 1 = 65536
      ∧ size_sub ((size_sub 16777472 1 / 256 + 1) % SIZE_MOD) 1 = 65536
      ∧ (65535 + 1) % N_FRAME_MOD = 0
      ∧ ∀ fuel, mem_loop 256 sum16 (List.replicate 16777472 0) 65536 fuel 0 0
          (List.replicate 65537 stale_frame_256) = none :=
  ⟨by decide, by decide, by decide,
    fun fuel => mem_loop_diverges 256 sum16 _ 65536 (by decide) fuel 0 0 _ (by decide)⟩

end TransmissionProtocol
